import Mathlib

/-!
Verification development for the local-library music manager
(`metadata.py`, `database_logic.py`, `models.py`, `app.py`).

Strings are modelled as Lean `String`s, with the character-level work done
on `List Char` (`String.data`).  Python floats (file mtimes, durations,
ratings) are modelled as `ℚ`; Python `round` is round-half-to-even, which
on every value reachable in the claims agrees with IEEE-double evaluation
(checked by hand: at the half-step rating boundaries the double products
land exactly on k*25.5, which is dyadic, so Python's banker's rounding on
doubles coincides with banker's rounding on the exact rationals).
-/

/-! ## Python string primitives (on `List Char`) -/

/-- The ASCII whitespace stripped by Python's `str.strip()`
(the full Unicode set is irrelevant to this code base). -/
def pyIsSpace (c : Char) : Bool :=
  c = ' ' || c = '\t' || c = '\n' || c = '\r' || c = '\x0b' || c = '\x0c'

/-- Remove trailing whitespace (the right half of `str.strip()`). -/
def dropTrailingSpace : List Char → List Char
  | [] => []
  | c :: rest =>
    match dropTrailingSpace rest with
    | [] => if pyIsSpace c then [] else [c]
    | r => c :: r

/-- Python `str.strip()` on a character list. -/
def pyStripL (l : List Char) : List Char :=
  dropTrailingSpace (l.dropWhile pyIsSpace)

/-- Python `str.strip()`. -/
def pyStrip (s : String) : String := ⟨pyStripL s.data⟩

/-- ASCII lower-casing of one character (Python `str.lower()`, restricted to
the ASCII range used by this code base). -/
def pyLowerChar (c : Char) : Char :=
  if 'A' ≤ c ∧ c ≤ 'Z' then Char.ofNat (c.toNat + 32) else c

/-- Python `str.lower()`. -/
def pyLower (s : String) : String := ⟨s.data.map pyLowerChar⟩

/-- Python `str.endswith(suf)`. -/
def pyEndsWith (s suf : String) : Bool :=
  suf.data.length ≤ s.data.length &&
    decide (s.data.drop (s.data.length - suf.data.length) = suf.data)

/-- True iff two adjacent copies of `a` occur in `l`
(Python `(a+a) in s` for a one-character `a`). -/
def hasPair (a : Char) : List Char → Bool
  | [] => false
  | [_] => false
  | c :: d :: rest =>
    if c = a ∧ d = a then true else hasPair a (d :: rest)

/-- The prefix of `l` before the first occurrence of the two-character
separator `a ++ a` (Python `s.split(a+a)[0]`). -/
def takeBeforePair (a : Char) : List Char → List Char
  | [] => []
  | [c] => [c]
  | c :: d :: rest =>
    if c = a ∧ d = a then [] else c :: takeBeforePair a (d :: rest)

/-- Python `s.replace('\\\\', '//')`: each non-overlapping pair of
consecutive backslashes, scanned left to right, becomes two slashes. -/
def normBackslashes : List Char → List Char
  | [] => []
  | [c] => [c]
  | c :: d :: rest =>
    if c = '\\' ∧ d = '\\' then '/' :: '/' :: normBackslashes rest
    else c :: normBackslashes (d :: rest)

/-! ## Python `int()` parsing and `str()` printing -/

/-- ASCII decimal digit test. -/
def isDigitChar (c : Char) : Bool :=
  c = '0' || c = '1' || c = '2' || c = '3' || c = '4' ||
  c = '5' || c = '6' || c = '7' || c = '8' || c = '9'

/-- Numeric value of an ASCII digit. -/
def digitVal (c : Char) : ℕ := c.toNat - 48

/-- Digits of a Python decimal literal after the first one: single
underscores are allowed between digits (`int("1_0") == 10`). -/
def digitsCore : List Char → ℕ → Option ℕ
  | [], acc => some acc
  | c :: rest, acc =>
    if isDigitChar c then digitsCore rest (10 * acc + digitVal c)
    else if c = '_' then
      match rest with
      | [] => none
      | c2 :: rest2 =>
        if isDigitChar c2 then digitsCore rest2 (10 * acc + digitVal c2) else none
    else none

/-- A non-empty run of digits (with legal underscores), as a number. -/
def pyIntDigits : List Char → Option ℕ
  | [] => none
  | c :: rest => if isDigitChar c then digitsCore rest (digitVal c) else none

/-- Python `int(s)` on an already-stripped string: optional sign followed
by digits.  (Non-ASCII digits are out of scope of this code base.) -/
def pyIntCore : List Char → Option ℤ
  | [] => none
  | c :: rest =>
    if c = '+' then (pyIntDigits rest).map (fun n => (n : ℤ))
    else if c = '-' then (pyIntDigits rest).map (fun n => -(n : ℤ))
    else (pyIntDigits (c :: rest)).map (fun n => (n : ℤ))

/-- Python `int(s)`: surrounding whitespace is ignored. -/
def pyInt (l : List Char) : Option ℤ := pyIntCore (pyStripL l)

/-- The ASCII character of a decimal digit. -/
def toDigitChar : ℕ → Char
  | 0 => '0' | 1 => '1' | 2 => '2' | 3 => '3' | 4 => '4'
  | 5 => '5' | 6 => '6' | 7 => '7' | 8 => '8' | 9 => '9'
  | _ => '*'

/-- Digit expansion with explicit fuel (so that it is structural and
kernel-reducible); `fuel > n` always suffices. -/
def natStrAux : ℕ → ℕ → List Char → List Char
  | 0, _, acc => acc
  | fuel + 1, n, acc =>
    if n < 10 then toDigitChar n :: acc
    else natStrAux fuel (n / 10) (toDigitChar (n % 10) :: acc)

/-- Python `str(n)` for a natural number. -/
def natStr (n : ℕ) : List Char := natStrAux (n + 1) n []

/-- Python `str(z)` for an integer. -/
def intStr (z : ℤ) : List Char :=
  if z < 0 then '-' :: natStr z.natAbs else natStr z.natAbs

/-! ## The sanitizers (`metadata.py`, `sanitize_track_number` and
`sanitize_year`) -/

/-- Body of `sanitize_track_number` on a character list (from
`metadata.sanitize_track_number`): empty input is returned untouched;
otherwise the input is stripped, the part before the first `/` is stripped
and parsed with `int()`; on success the re-stringified integer is the clean
value, on failure the clean value is empty and `changed` records whether
the stripped original was non-empty. -/
def sanitizeTrackCore (l : List Char) : Bool × List Char :=
  if l = [] then (false, [])
  else
    let t := pyStripL l
    let part := pyStripL (t.takeWhile (fun c => c ≠ '/'))
    match pyInt part with
    | some n => (decide (t ≠ intStr n), intStr n)
    | none => (decide (t ≠ []), [])

/-- The function `metadata.sanitize_track_number`. -/
def sanitize_track_number (s : String) : Bool × String :=
  let r := sanitizeTrackCore s.data
  (r.1, ⟨r.2⟩)

/-- Body of `sanitize_year` on a character list (from
`metadata.sanitize_year`): empty input is returned untouched; otherwise the
input is stripped, every pair of consecutive backslashes is replaced by
`//`, and if `//` occurs the stripped prefix before it is returned with
`changed = true`, else the stripped original with `changed = false`. -/
def sanitizeYearCore (l : List Char) : Bool × List Char :=
  if l = [] then (false, [])
  else
    let t := pyStripL l
    let nrm := normBackslashes t
    if hasPair '/' nrm then (true, pyStripL (takeBeforePair '/' nrm))
    else (false, t)

/-- The function `metadata.sanitize_year`. -/
def sanitize_year (s : String) : Bool × String :=
  let r := sanitizeYearCore s.data
  (r.1, ⟨r.2⟩)

/-- Modelled from the claim's wording (for comparison with the source
function): "trims and normalizes any backslash run to forward-slash; if a
double-slash delimiter is then present, clean = the substring before its
first occurrence with changed = true, otherwise the value is returned
unchanged with changed = false". -/
def sanitizeYearClaim (l : List Char) : Bool × List Char :=
  if l = [] then (false, [])
  else
    let t := pyStripL l
    let nrm := t.map (fun c => if c = '\\' then '/' else c)
    if hasPair '/' nrm then (true, takeBeforePair '/' nrm)
    else (false, t)


/-! ## Rating codec arithmetic (`MetadataManager.load_rating` /
`save_rating`) -/

/-- Python's `round` to an integer: round half to even. -/
def pyRound (q : ℚ) : ℤ :=
  let f := ⌊q⌋
  if q - f < 1/2 then f
  else if 1/2 < q - f then f + 1
  else if f % 2 = 0 then f else f + 1

/-- The POPM byte written by `MetadataManager.save_rating`:
`int(round(rating / 5 * 255))`. -/
def save_rating_byte (v : ℚ) : ℤ := pyRound (v / 5 * 255)

/-- The 0–5 value returned by `MetadataManager.load_rating` from a raw
POPM byte: `round(rating_val / 255 * 5 * 2) / 2`. -/
def load_rating_value (raw : ℤ) : ℚ := (pyRound ((raw : ℚ) / 255 * 5 * 2) : ℚ) / 2

/-! ## The Track Store (`database_logic.py`) -/

/-- One row of the `library` table (`models.Song` / the column list of
`DatabaseManager.add_songs_batch`).  The extension slots `ext_2 … ext_20`
are always `None` in every record this development manipulates and are
omitted; `ext1` is slot 1 (the sanitized track number). -/
structure SongRow where
  file_path : String
  artist : Option String
  title : Option String
  album : Option String
  genre : Option String
  year : Option String
  comment : Option String
  duration : ℚ
  play_count : ℤ
  rating : ℚ
  ext1 : Option String
deriving DecidableEq, Repr

/-- The statement `INSERT OR REPLACE INTO library` keyed by `file_path`: if a row with
the same path exists it is replaced wholesale, otherwise the row is
appended. -/
def upsert (db : List SongRow) (s : SongRow) : List SongRow :=
  if db.any (fun r => r.file_path = s.file_path) then
    db.map (fun r => if r.file_path = s.file_path then s else r)
  else db ++ [s]

/-- The method `DatabaseManager.add_songs_batch`: one `INSERT OR REPLACE` per song,
in order.  (The early return on an empty list is the same as folding
nothing.) -/
def add_songs_batch (songs : List SongRow) (db : List SongRow) : List SongRow :=
  songs.foldl upsert db

/-- The method `DatabaseManager.get_all_filepaths`: `SELECT file_path FROM library`. -/
def get_all_filepaths (db : List SongRow) : List String :=
  db.map (fun r => r.file_path)

/-- The name `DatabaseManager.delete_songs_by_paths` looked up as an attribute of
`DatabaseManager`: in `database_logic.py` its `def` sits inside
`get_all_filepaths`, after that function's unconditional `return`
(lines 104–126), so the class body never executes it and the attribute is
never bound — the lookup fails.  `none` models the absent attribute. -/
def delete_songs_by_paths? : Option (List String → List SongRow → List SongRow) :=
  none

/-! ## The filesystem model and `os.walk` -/

/-- The tag fields `ScannerThread.run` reads through `EasyID3`
(each one defaulting to `""` when the key is absent). -/
structure EasyTags where
  artist : String
  title : String
  album : String
  genre : String
  year : String
  tracknumber : String
deriving DecidableEq, Repr

/-- One file on disk. `easy = none` models `EasyID3(path)` raising,
`mp3 = none` models `MP3(path)` raising (otherwise it carries
`audio_file.info.length if audio_file.info else 0.0`), and `mtime = none`
models `os.path.getmtime(path)` raising. -/
structure FSFile where
  name : String
  mtime : Option ℚ
  easy : Option EasyTags
  mp3 : Option ℚ
deriving DecidableEq, Repr

/-- A directory tree: name, directly contained files, subdirectories. -/
inductive FSDir where
  | mk : String → List FSFile → List FSDir → FSDir

def FSDir.name : FSDir → String
  | .mk n _ _ => n

def FSDir.files : FSDir → List FSFile
  | .mk _ fs _ => fs

def FSDir.subdirs : FSDir → List FSDir
  | .mk _ _ subs => subs

/-- The in-place `dirnames[:]` filter of `ScannerThread.run` line 62:
descend into `d` iff `d.lower() != 'parking' and d != 'Library'`. -/
def keepDir (d : FSDir) : Bool :=
  pyLower d.name ≠ "parking" && d.name ≠ "Library"

mutual
/-- The walk `os.walk(root)` as consumed by `ScannerThread.run`: top-down entries
`(dirpath, dir)`, with the `dirnames[:]` filter applied before descent.
`dirpath` is built with `/` as separator; the basename of an entry's path
is its `FSDir.name`. -/
def walkDirs (p : String) : FSDir → List (String × FSDir)
  | .mk n fs subs => (p, .mk n fs subs) :: walkList p subs

def walkList (p : String) : List FSDir → List (String × FSDir)
  | [] => []
  | c :: rest =>
    (if keepDir c then walkDirs (p ++ "/" ++ c.name) c else []) ++ walkList p rest
end

mutual
/-- Every file in the tree, in `os.walk` top-down order
(a directory's own files, then its subtrees in order). -/
def treeFiles : FSDir → List FSFile
  | .mk _ fs subs => fs ++ treeFilesL subs

def treeFilesL : List FSDir → List FSFile
  | [] => []
  | c :: rest => treeFiles c ++ treeFilesL rest
end

/-! ## `create_library_snapshot` (`metadata.py` lines 280–303) -/

/-- The per-file step of `create_library_snapshot`: count a file iff its
lower-cased name ends in `.mp3`; the count is incremented before
`os.path.getmtime`, so a file whose mtime read raises is still counted. -/
def snapStep (acc : ℕ × ℚ) (f : FSFile) : ℕ × ℚ :=
  if pyEndsWith (pyLower f.name) ".mp3" then
    (acc.1 + 1, match f.mtime with
      | some m => max acc.2 m
      | none => acc.2)
  else acc

/-- Fold `snapStep` over a file list. -/
def snapFiles (files : List FSFile) (acc : ℕ × ℚ) : ℕ × ℚ :=
  files.foldl snapStep acc

/-- The function `metadata.create_library_snapshot`: walks the whole tree (no directory
exclusions) starting from `(file_count, latest_mod_time) = (0, 0.0)`.
`os.walk` enumerates exactly the files of `treeFiles`, and the two
accumulated quantities fold over that enumeration. -/
def create_library_snapshot (d : FSDir) : ℕ × ℚ :=
  snapFiles (treeFiles d) (0, 0)

/-! ## The scanner (`ScannerThread.run`) -/

/-- The flag reads of `self.is_running` in walk order: `cancelAt = none`
means the stop flag is never set (a completed scan); `cancelAt = some k`
means the flag flips to `False` just before the `k`-th read (0-based), so
reads `0 … k-1` observe `True` and all later reads observe `False`. -/
def running (cancelAt : Option ℕ) (reads : ℕ) : Bool :=
  match cancelAt with
  | none => true
  | some k => reads < k

/-- The scanner's loop state.  `found`, `db`, `batch`, `tagsToFix`,
`yearsToFix`, `fileCount`, `latestMod` are the Python locals; `checks`
numbers the `is_running` reads performed so far.  `flushed` and
`processed` are history variables (not Python state): the concatenation of
the batches flushed so far, and every record constructed so far. -/
structure ScanAcc where
  found : List String
  db : List SongRow
  batch : List SongRow
  tagsToFix : List (String × String)
  yearsToFix : List (String × String)
  fileCount : ℕ
  latestMod : ℚ
  checks : ℕ
  flushed : List SongRow
  processed : List SongRow
deriving Repr

def initAcc (db0 : List SongRow) : ScanAcc :=
  ⟨[], db0, [], [], [], 0, 0, 0, [], []⟩

/-- The step `song_batch.append(song)` followed by the 500-record flush check
(`ScannerThread.run` lines 136–144; the `artist_changed` signal is a side
channel and is not modelled). -/
def pushSong (acc : ScanAcc) (row : SongRow) : ScanAcc :=
  let acc' := { acc with processed := acc.processed ++ [row] }
  let b := acc'.batch ++ [row]
  if 500 ≤ b.length then
    { acc' with batch := [], db := add_songs_batch b acc'.db,
                flushed := acc'.flushed ++ b }
  else { acc' with batch := b }

/-- The body of the per-file loop (`ScannerThread.run` lines 87–144),
after the `is_running` check: add the joined path to `found_paths`, read
tags, sanitize, and construct the `Song`.  The `try` block can fail at
`EasyID3` (before the sanitizers run), at `MP3` (after the fix lists were
appended, keeping the tag values already read but overwriting the title
with the file name and resetting the clean values), or at `getmtime`
(after `file_count` was already incremented and `duration` assigned). -/
def handleFile (dirpath : String) (f : FSFile) (acc : ScanAcc) : ScanAcc :=
  let path := dirpath ++ "/" ++ f.name
  let acc := { acc with found := acc.found ++ [path] }
  match f.easy with
  | none =>
    pushSong acc { file_path := path,
                   artist := none,
                   title := some f.name,
                   album := none,
                   genre := none,
                   year := some "",
                   comment := none,
                   duration := 0,
                   play_count := 0,
                   rating := 0,
                   ext1 := some "" }
  | some tg =>
    let r1 := sanitize_track_number tg.tracknumber
    let acc := if r1.1 then
      { acc with tagsToFix := acc.tagsToFix ++ [(path, r1.2)] } else acc
    let r2 := sanitize_year tg.year
    let acc := if r2.1 then
      { acc with yearsToFix := acc.yearsToFix ++ [(path, r2.2)] } else acc
    match f.mp3 with
    | none =>
      pushSong acc { file_path := path,
                     artist := some tg.artist,
                     title := some f.name,
                     album := some tg.album,
                     genre := some tg.genre,
                     year := some "",
                     comment := none,
                     duration := 0,
                     play_count := 0,
                     rating := 0,
                     ext1 := some "" }
    | some dur =>
      let acc := { acc with fileCount := acc.fileCount + 1 }
      match f.mtime with
      | none =>
        pushSong acc { file_path := path,
                       artist := some tg.artist,
                       title := some f.name,
                       album := some tg.album,
                       genre := some tg.genre,
                       year := some "",
                       comment := none,
                       duration := dur,
                       play_count := 0,
                       rating := 0,
                       ext1 := some "" }
      | some mt =>
        let acc := { acc with latestMod := max acc.latestMod mt }
        pushSong acc { file_path := path,
                       artist := some tg.artist,
                       title := some tg.title,
                       album := some tg.album,
                       genre := some tg.genre,
                       year := some r2.2,
                       comment := none,
                       duration := dur,
                       play_count := 0,
                       rating := 0,
                       ext1 := some r1.2 }

/-- The inner `for filename in mp3s` loop: each iteration first reads
`self.is_running` and breaks when it is false. -/
def processFiles (cA : Option ℕ) (dirpath : String) :
    List FSFile → ScanAcc → ScanAcc
  | [], acc => acc
  | f :: rest, acc =>
    if running cA acc.checks then
      processFiles cA dirpath rest (handleFile dirpath f { acc with checks := acc.checks + 1 })
    else { acc with checks := acc.checks + 1 }

/-- One `os.walk` entry (lines 64–147): skip it when the folder basename
is `parking` (case-insensitive) or `Library`, else run the file loop on
the `.mp3`-suffixed files.  (The legacy `tree` display structure and the
throttled progress signal are presentation-only and are not modelled.) -/
def processEntry (cA : Option ℕ) (e : String × FSDir) (acc : ScanAcc) : ScanAcc :=
  if pyLower e.2.name = "parking" ∨ e.2.name = "Library" then acc
  else processFiles cA e.1 (e.2.files.filter (fun f => pyEndsWith f.name ".mp3")) acc

/-- The outer `for dirpath, dirnames, filenames in os.walk(...)` loop:
each iteration first reads `self.is_running` and breaks when false. -/
def processEntries (cA : Option ℕ) :
    List (String × FSDir) → ScanAcc → ScanAcc
  | [], acc => acc
  | e :: rest, acc =>
    if running cA acc.checks then
      processEntries cA rest (processEntry cA e { acc with checks := acc.checks + 1 })
    else { acc with checks := acc.checks + 1 }

/-- The scanner state after the walk loop. -/
def scanAccOf (db0 : List SongRow) (rootPath : String) (root : FSDir)
    (cancelAt : Option ℕ) : ScanAcc :=
  processEntries cancelAt (walkDirs rootPath root) (initAcc db0)

/-- The payload of the `finished` signal, minus the legacy folder tree:
the two fix lists and the snapshot `{latest_mod_time, file_count}`. -/
structure Emitted where
  tagsToFix : List (String × String)
  yearsToFix : List (String × String)
  fileCount : ℕ
  latestMod : ℚ
deriving DecidableEq, Repr

/-- How a `ScannerThread.run` invocation ends: cancelled (early `return`,
nothing emitted), dead of the uncaught `AttributeError` raised by the
prune call (nothing emitted), or finished (signal emitted). -/
inductive RunResult where
  | cancelled : List SongRow → RunResult
  | attrError : List SongRow → RunResult
  | finished : List SongRow → Emitted → RunResult
deriving DecidableEq, Repr

/-- The method `ScannerThread.run` (lines 42–179): snapshot `db_paths`, walk, final
check (`if not self.is_running: return`), final batch flush, stale-path
computation, prune attempt, emission. -/
def ScannerRun (db0 : List SongRow) (rootPath : String) (root : FSDir)
    (cancelAt : Option ℕ) : RunResult :=
  let dbPaths := get_all_filepaths db0
  let acc := scanAccOf db0 rootPath root cancelAt
  if running cancelAt acc.checks = false then RunResult.cancelled acc.db
  else
    let db1 := add_songs_batch acc.batch acc.db
    let stale := dbPaths.filter (fun p => decide (p ∉ acc.found))
    if stale = [] then
      RunResult.finished db1 ⟨acc.tagsToFix, acc.yearsToFix, acc.fileCount, acc.latestMod⟩
    else
      match delete_songs_by_paths? with
      | none => RunResult.attrError db1
      | some del =>
        RunResult.finished (del stale db1)
          ⟨acc.tagsToFix, acc.yearsToFix, acc.fileCount, acc.latestMod⟩

/-- The store a run ends with. -/
def storeOf : RunResult → List SongRow
  | .cancelled db => db
  | .attrError db => db
  | .finished db _ => db

/-- Did the run emit the `finished` signal? -/
def emitsResult : RunResult → Bool
  | .finished _ _ => true
  | _ => false

/-- Did the run die of the `AttributeError`? -/
def isAttrError : RunResult → Bool
  | .attrError _ => true
  | _ => false

/-- Was the run cancelled? -/
def isCancelled : RunResult → Bool
  | .cancelled _ => true
  | _ => false

/-- The fingerprint `{file_count, latest_mod_time}` of the emitted
snapshot, when one was emitted. -/
def fingerprintOf : RunResult → Option (ℕ × ℚ)
  | .finished _ e => some (e.fileCount, e.latestMod)
  | _ => none

/-- Paths of the store a run ends with. -/
def resultPathsOf (r : RunResult) : List String := get_all_filepaths (storeOf r)

/-- The row of a store at a path. -/
def rowAt (db : List SongRow) (p : String) : Option SongRow :=
  db.find? (fun r => decide (r.file_path = p))

/-! ## Tree hygiene predicates for the fingerprint claim -/

/-- The folder name triggers neither the descent filter nor the
`continue`. -/
def dirNameOk (n : String) : Bool :=
  pyLower n ≠ "parking" && n ≠ "Library"

/-- The file's `.mp3` suffix test is case-insensitive-agnostic, and if it
is an mp3 all three reads (`EasyID3`, `MP3`, `getmtime`) succeed. -/
def fileOk (f : FSFile) : Bool :=
  (pyEndsWith f.name ".mp3" == pyEndsWith (pyLower f.name) ".mp3") &&
    (if pyEndsWith f.name ".mp3" = true then
      f.easy.isSome && f.mp3.isSome && f.mtime.isSome
    else true)

mutual
/-- Every directory of the tree has an unexcluded name and only
well-behaved files. -/
def goodTree : FSDir → Bool
  | .mk n fs subs => dirNameOk n && fs.all fileOk && goodTreeL subs

def goodTreeL : List FSDir → Bool
  | [] => true
  | c :: rest => goodTree c && goodTreeL rest
end

/-! ## The hierarchy builder (`TreePopulationThread.run` and
`MP3Player._on_tree_population_finished` / `track_sort_key`) -/

/-- The fallback `getattr(s, key, None) or "Unknown"`: `None` and `""` both fall back
to the literal `Unknown`. -/
def orUnknown : Option String → String
  | none => "Unknown"
  | some s => if s = "" then "Unknown" else s

def genreKey (s : SongRow) : String := orUnknown s.genre
def artistKey (s : SongRow) : String := orUnknown s.artist
def albumKey (s : SongRow) : String := orUnknown s.album

/-- The method `MP3Player.track_sort_key`: the string `ext_1 or "0"`, part before `/`,
`int(...)`, falling back to 0 on failure. -/
def track_sort_key (s : SongRow) : ℤ :=
  let ts : String := match s.ext1 with
    | none => "0"
    | some x => if x = "" then "0" else x
  match pyInt (ts.data.takeWhile (fun c => c ≠ '/')) with
  | some n => n
  | none => 0

/-- The track comparison used inside an album. -/
def byTrackKey (x y : SongRow) : Prop := track_sort_key x ≤ track_sort_key y

instance : DecidableRel byTrackKey := fun x y =>
  inferInstanceAs (Decidable (track_sort_key x ≤ track_sort_key y))

instance : IsTotal SongRow byTrackKey :=
  ⟨fun x y => le_total (track_sort_key x) (track_sort_key y)⟩

instance : IsTrans SongRow byTrackKey :=
  ⟨fun _ _ _ h1 h2 => le_trans h1 h2⟩

/-- The iteration `sorted(d.items())` over a dict built with `setdefault`: the unique
keys in ascending order.  Python's stable `sorted` on unique keys is any
sort; insertion sort is used here. -/
def sortStrings (l : List String) : List String :=
  List.insertionSort (fun a b => a ≤ b) l.dedup

/-- The rows of one album leaf, in emission order: the album's records in
input order (`hierarchy.setdefault(...).append(s)`), sorted once by
`track_sort_key` (`sorted_songs = sorted(songs, key=self.track_sort_key)`;
Python's sort is stable and `List.insertionSort` keeps ties in input order
the same way). -/
def tracksFor (songs : List SongRow) (g a al : String) : List SongRow :=
  List.insertionSort byTrackKey
    (songs.filter (fun s => decide (genreKey s = g ∧ artistKey s = a ∧ albumKey s = al)))

/-- The albums under one artist, keyed and emitted in sorted order. -/
def albumsFor (songs : List SongRow) (g a : String) : List (String × List SongRow) :=
  (sortStrings ((songs.filter
      (fun s => decide (genreKey s = g ∧ artistKey s = a))).map albumKey)).map
    (fun al => (al, tracksFor songs g a al))

/-- The artists under one genre, keyed and emitted in sorted order. -/
def artistsFor (songs : List SongRow) (g : String) :
    List (String × List (String × List SongRow)) :=
  (sortStrings ((songs.filter (fun s => decide (genreKey s = g))).map artistKey)).map
    (fun a => (a, albumsFor songs g a))

/-- The builder `TreePopulationThread.run` + the sorted emission of
`_on_tree_population_finished`: genre → artist → album → ordered tracks. -/
def buildHierarchy (songs : List SongRow) :
    List (String × List (String × List (String × List SongRow))) :=
  (sortStrings (songs.map genreKey)).map (fun g => (g, artistsFor songs g))

/-! ## Auxiliary definitions used by the proofs -/

/-- Big-endian decimal value of a digit string, for relating parsing and
printing. -/
def charsVal (l : List Char) (a : ℕ) : ℕ :=
  l.foldl (fun x c => 10 * x + digitVal c) a

/-- The scanner-loop invariant tying the walk state to the store history:
the store is the initial store with the flushed batches applied; the
constructed records are the flushed ones followed by the pending batch;
`found_paths` lists exactly the constructed records' paths; every record
the scanner constructs carries `play_count = 0` (the `Song` default). -/
def ScanInv (db0 : List SongRow) (acc : ScanAcc) : Prop :=
  acc.db = add_songs_batch acc.flushed db0 ∧
  acc.processed = acc.flushed ++ acc.batch ∧
  acc.found = acc.processed.map (fun r => r.file_path) ∧
  (∀ r ∈ acc.processed, r.play_count = 0)

/-! ### Concrete fixtures for the claims' evaluations -/

/-- A stored row with everything empty except path and play count. -/
def plainRow (p : String) (pc : ℤ) : SongRow :=
  { file_path := p,
    artist := none,
    title := none,
    album := none,
    genre := none,
    year := none,
    comment := none,
    duration := 0,
    play_count := pc,
    rating := 0,
    ext1 := none }

/-- Well-formed tags used by the fixture files. -/
def egTags : EasyTags := ⟨"ar", "ti", "al", "ge", "1999", "1"⟩

/-- C1: a root holding exactly `B.mp3` and `C.mp3`. -/
def c1Tree : FSDir :=
  .mk "m" [⟨"B.mp3", some 5, some egTags, some 3⟩,
           ⟨"C.mp3", some 6, some egTags, some 3⟩] []

/-- C2 witness: a root holding only `b.mp3`. -/
def c2Tree : FSDir := .mk "w" [⟨"b.mp3", some 4, some egTags, some 2⟩] []

/-- C3: a root holding only `B.mp3`. -/
def c3Tree : FSDir := .mk "m3" [⟨"B.mp3", some 5, some egTags, some 3⟩] []

/-- C4 counterexample: the only audio file sits in a `parking` directory,
which the scanner's walk excludes but `create_library_snapshot` counts. -/
def c4BadTree : FSDir :=
  .mk "m4" [] [.mk "parking" [⟨"a.mp3", some 5, some egTags, some 1⟩] []]

/-- C4 counterexample: two audio files with mtimes 3 and 9. -/
def c4TreeA : FSDir :=
  .mk "m5" [⟨"a.mp3", some 3, some egTags, some 1⟩,
            ⟨"b.mp3", some 9, some egTags, some 1⟩] []

/-- Tree `c4TreeA` after changing the mtime of `a.mp3` from 3 to 5 (still below the
maximum 9). -/
def c4TreeB : FSDir :=
  .mk "m5" [⟨"a.mp3", some 5, some egTags, some 1⟩,
            ⟨"b.mp3", some 9, some egTags, some 1⟩] []

/-- C4 witness: a hygienic tree with a subdirectory. -/
def c4GoodTree : FSDir :=
  .mk "g" [⟨"a.mp3", some 5, some egTags, some 2⟩]
    [.mk "sub" [⟨"b.mp3", some 8, some egTags, some 2⟩] []]

/-- C4 witness: `c4GoodTree` after touching `a.mp3` (mtime 5 → 20, above
the previous maximum 8). -/
def c4GoodTouched : FSDir :=
  .mk "g" [⟨"a.mp3", some 20, some egTags, some 2⟩]
    [.mk "sub" [⟨"b.mp3", some 8, some egTags, some 2⟩] []]

/-- C5 witness: a root with two audio files. -/
def c5Tree : FSDir :=
  .mk "m6" [⟨"a.mp3", some 1, some egTags, some 1⟩,
            ⟨"b.mp3", some 2, some egTags, some 1⟩] []

/-- C9: a store record with given album-level tags and track slot. -/
def c9Row (p : String) (g a al : Option String) (ext : Option String) : SongRow :=
  { file_path := p,
    artist := a,
    title := some p,
    album := al,
    genre := g,
    year := none,
    comment := none,
    duration := 0,
    play_count := 0,
    rating := 0,
    ext1 := ext }

/-! # Theorems

## Character and strip lemmas -/

theorem isDigitChar_elim {c : Char} (h : isDigitChar c = true) :
    c = '0' ∨ c = '1' ∨ c = '2' ∨ c = '3' ∨ c = '4' ∨
    c = '5' ∨ c = '6' ∨ c = '7' ∨ c = '8' ∨ c = '9' := by
  simp only [isDigitChar, Bool.or_eq_true, decide_eq_true_eq] at h
  tauto

theorem digit_not_space {c : Char} (h : isDigitChar c = true) :
    pyIsSpace c = false := by
  rcases isDigitChar_elim h with h | h | h | h | h | h | h | h | h | h <;>
    subst h <;> decide

theorem digit_ne_slash {c : Char} (h : isDigitChar c = true) : c ≠ '/' := by
  rcases isDigitChar_elim h with h | h | h | h | h | h | h | h | h | h <;>
    subst h <;> decide

theorem digit_ne_plus {c : Char} (h : isDigitChar c = true) : c ≠ '+' := by
  rcases isDigitChar_elim h with h | h | h | h | h | h | h | h | h | h <;>
    subst h <;> decide

theorem digit_ne_minus {c : Char} (h : isDigitChar c = true) : c ≠ '-' := by
  rcases isDigitChar_elim h with h | h | h | h | h | h | h | h | h | h <;>
    subst h <;> decide

theorem toDigitChar_digit {d : ℕ} (h : d < 10) :
    isDigitChar (toDigitChar d) = true := by
  interval_cases d <;> decide

theorem digitVal_toDigitChar {d : ℕ} (h : d < 10) :
    digitVal (toDigitChar d) = d := by
  interval_cases d <;> decide

theorem dropWhile_head_false {p : Char → Bool} :
    ∀ {l : List Char} {c : Char} {rest : List Char},
      l.dropWhile p = c :: rest → p c = false := by
  intro l
  induction l with
  | nil => intro c rest h; cases h
  | cons a t ih =>
    intro c rest h
    by_cases hp : p a
    · rw [List.dropWhile_cons_of_pos hp] at h
      exact ih h
    · rw [List.dropWhile_cons_of_neg hp] at h
      cases h
      simpa using hp

theorem dropWhile_eq_self_of_head {p : Char → Bool} :
    ∀ {l : List Char}, (∀ c rest, l = c :: rest → p c = false) →
      l.dropWhile p = l := by
  intro l h
  cases l with
  | nil => rfl
  | cons c rest => exact List.dropWhile_cons_of_neg (by simp [h c rest rfl])

theorem dts_shape (c : Char) (rest : List Char) :
    dropTrailingSpace (c :: rest) = [] ∨
      ∃ r, dropTrailingSpace (c :: rest) = c :: r := by
  rw [dropTrailingSpace]
  cases h : dropTrailingSpace rest with
  | nil =>
    by_cases hs : pyIsSpace c
    · left; simp [hs]
    · right; exact ⟨[], by simp [hs]⟩
  | cons b t => right; exact ⟨b :: t, rfl⟩

theorem dts_last_not_space :
    ∀ l : List Char, dropTrailingSpace l = [] ∨
      ∃ r c, dropTrailingSpace l = r ++ [c] ∧ pyIsSpace c = false := by
  intro l
  induction l with
  | nil => left; rfl
  | cons a t ih =>
    rw [dropTrailingSpace]
    rcases ih with h | ⟨r, c, hr, hc⟩
    · rw [h]
      by_cases hs : pyIsSpace a
      · left; simp [hs]
      · right
        exact ⟨[], a, by simp [hs], by simpa using hs⟩
    · rw [hr]
      rcases r with _ | ⟨b, r'⟩
      · right; exact ⟨[a], c, rfl, hc⟩
      · right; exact ⟨a :: b :: r', c, rfl, hc⟩

theorem dts_eq_self :
    ∀ l : List Char, (∀ r c, l = r ++ [c] → pyIsSpace c = false) →
      dropTrailingSpace l = l := by
  intro l
  induction l with
  | nil => intro _; rfl
  | cons a t ih =>
    intro h
    rw [dropTrailingSpace]
    cases t with
    | nil =>
      have : pyIsSpace a = false := h [] a rfl
      simp [dropTrailingSpace, this]
    | cons b t' =>
      have ht : dropTrailingSpace (b :: t') = b :: t' := by
        apply ih
        intro r c hrc
        exact h (a :: r) c (by rw [hrc]; rfl)
      rw [ht]

theorem dts_decompose :
    ∀ l : List Char, ∃ t, l = dropTrailingSpace l ++ t := by
  intro l
  induction l with
  | nil => exact ⟨[], rfl⟩
  | cons a t ih =>
    rw [dropTrailingSpace]
    cases h : dropTrailingSpace t with
    | nil =>
      by_cases hs : pyIsSpace a
      · exact ⟨a :: t, by simp [hs]⟩
      · rcases ih with ⟨u, hu⟩
        rw [h] at hu
        exact ⟨t, by simp [hs, hu]⟩
    | cons b t' =>
      rcases ih with ⟨u, hu⟩
      rw [h] at hu
      exact ⟨u, by rw [hu]; rfl⟩

theorem dts_all_not_space {l : List Char}
    (h : ∀ c ∈ l, pyIsSpace c = false) : dropTrailingSpace l = l := by
  apply dts_eq_self
  intro r c hrc
  exact h c (by rw [hrc]; simp)

theorem pyStripL_all_not_space {l : List Char}
    (h : ∀ c ∈ l, pyIsSpace c = false) : pyStripL l = l := by
  unfold pyStripL
  rw [dropWhile_eq_self_of_head, dts_all_not_space h]
  intro c rest hcr
  exact h c (by rw [hcr]; simp)

theorem pyStripL_idem (l : List Char) : pyStripL (pyStripL l) = pyStripL l := by
  unfold pyStripL
  set m := dropTrailingSpace (l.dropWhile pyIsSpace) with hm
  have hdw : m.dropWhile pyIsSpace = m := by
    apply dropWhile_eq_self_of_head
    intro c rest hcr
    cases hdwl : l.dropWhile pyIsSpace with
    | nil => rw [hm, hdwl] at hcr; cases hcr
    | cons c0 rest0 =>
      have h0 : pyIsSpace c0 = false := dropWhile_head_false hdwl
      rcases dts_shape c0 rest0 with hz | ⟨r, hr⟩
      · rw [hm, hdwl, hz] at hcr; cases hcr
      · rw [hm, hdwl, hr] at hcr
        cases hcr
        exact h0
  rw [hdw]
  rcases dts_last_not_space (l.dropWhile pyIsSpace) with hz | ⟨r, c, hr, hc⟩
  · rw [← hm] at hz
    rw [hz]
    rfl
  · rw [← hm] at hr
    rw [hr]
    apply dts_eq_self
    intro r' c' h'
    have : c' = c := by
      have := congrArg (fun x => x.getLast?) h'
      simpa using this.symm
    rw [this]
    exact hc

/-! ## Pair / backslash lemmas -/

theorem hasPair_cons_false {a c : Char} {l : List Char}
    (h : hasPair a (c :: l) = false) : hasPair a l = false := by
  cases l with
  | nil => rfl
  | cons d rest =>
    rw [hasPair] at h
    split at h
    · cases h
    · exact h

theorem hasPair_cons_ne {a c : Char} (hc : c ≠ a) (l : List Char) :
    hasPair a (c :: l) = hasPair a l := by
  cases l with
  | nil => rfl
  | cons d rest =>
    rw [hasPair]
    have : ¬(c = a ∧ d = a) := fun hcd => hc hcd.1
    simp [this]

theorem hasPair_append_left {a : Char} :
    ∀ {l1 l2 : List Char}, hasPair a (l1 ++ l2) = false →
      hasPair a l1 = false := by
  intro l1
  induction l1 with
  | nil => intro l2 _; rfl
  | cons c t ih =>
    intro l2 h
    cases t with
    | nil => rfl
    | cons d t' =>
      rw [List.cons_append, List.cons_append, hasPair] at h
      split at h
      · cases h
      · rename_i hcond
        rw [hasPair]
        rw [if_neg hcond]
        exact ih h

theorem hasPair_dropWhile {a : Char} {p : Char → Bool} :
    ∀ {l : List Char}, hasPair a l = false →
      hasPair a (l.dropWhile p) = false := by
  intro l
  induction l with
  | nil => intro _; rfl
  | cons c t ih =>
    intro h
    by_cases hp : p c
    · rw [List.dropWhile_cons_of_pos hp]
      exact ih (hasPair_cons_false h)
    · rw [List.dropWhile_cons_of_neg hp]
      exact h

theorem hasPair_pyStripL {a : Char} {l : List Char}
    (h : hasPair a l = false) : hasPair a (pyStripL l) = false := by
  unfold pyStripL
  rcases dts_decompose (l.dropWhile pyIsSpace) with ⟨t, ht⟩
  have hdw : hasPair a (l.dropWhile pyIsSpace) = false := hasPair_dropWhile h
  rw [ht] at hdw
  exact hasPair_append_left hdw

theorem takeBeforePair_no_pair (a : Char) :
    ∀ l : List Char, hasPair a (takeBeforePair a l) = false := by
  intro l
  induction l using takeBeforePair.induct a with
  | case1 => rfl
  | case2 c => rfl
  | case3 c d rest hcond =>
    rw [takeBeforePair, if_pos hcond]
    rfl
  | case4 c d rest hcond ih =>
    rw [takeBeforePair, if_neg hcond]
    by_cases hca : c = a
    · have hda : d ≠ a := fun hd => hcond ⟨hca, hd⟩
      cases rest with
      | nil =>
        rw [takeBeforePair]
        rw [hasPair]
        have : ¬(c = a ∧ d = a) := fun hcd => hda hcd.2
        simp [this, hasPair]
      | cons e rest' =>
        rw [takeBeforePair]
        split
        · rw [hasPair]
        · rw [hasPair]
          have : ¬(c = a ∧ d = a) := fun hcd => hda hcd.2
          rw [if_neg this]
          rw [takeBeforePair] at ih
          rw [if_neg] at ih
          · exact ih
          · rename_i hde
            exact fun hcd => hde ⟨hcd.1, hcd.2⟩
    · rw [hasPair_cons_ne hca]
      exact ih

theorem takeBeforePair_decompose (a : Char) :
    ∀ l : List Char, ∃ t, l = takeBeforePair a l ++ t := by
  intro l
  induction l using takeBeforePair.induct a with
  | case1 => exact ⟨[], rfl⟩
  | case2 c => exact ⟨[], rfl⟩
  | case3 c d rest hcond =>
    rw [takeBeforePair, if_pos hcond]
    exact ⟨c :: d :: rest, rfl⟩
  | case4 c d rest hcond ih =>
    rw [takeBeforePair, if_neg hcond]
    rcases ih with ⟨t, ht⟩
    exact ⟨t, by rw [List.cons_append, ← ht]⟩

theorem normBackslashes_head_ne {d : Char} (hd : d ≠ '\\') (l : List Char) :
    ∃ t, normBackslashes (d :: l) = d :: t := by
  cases l with
  | nil => exact ⟨[], rfl⟩
  | cons e l' =>
    rw [normBackslashes]
    rw [if_neg (fun hde => hd hde.1)]
    exact ⟨normBackslashes (e :: l'), rfl⟩

theorem normBackslashes_no_pair :
    ∀ l : List Char, hasPair '\\' (normBackslashes l) = false := by
  intro l
  induction l using normBackslashes.induct with
  | case1 => rfl
  | case2 c => rfl
  | case3 c d rest hcond ih =>
    rw [normBackslashes, if_pos hcond]
    rw [hasPair_cons_ne (by decide) (('/' : Char) :: normBackslashes rest)]
    cases hnr : normBackslashes rest with
    | nil => rfl
    | cons x xs =>
      rw [hasPair_cons_ne (by decide)]
      rw [hnr] at ih
      exact ih
  | case4 c d rest hcond ih =>
    rw [normBackslashes, if_neg hcond]
    by_cases hc : c = '\\'
    · have hd : d ≠ '\\' := fun hdd => hcond ⟨hc, hdd⟩
      rcases normBackslashes_head_ne hd rest with ⟨t, ht⟩
      rw [ht]
      rw [hasPair]
      have : ¬(c = '\\' ∧ d = '\\') := fun hcd => hd hcd.2
      rw [if_neg this]
      rw [ht] at ih
      exact ih
    · rw [hasPair_cons_ne hc]
      exact ih

theorem normBackslashes_id_of_no_pair :
    ∀ l : List Char, hasPair '\\' l = false → normBackslashes l = l := by
  intro l
  induction l using normBackslashes.induct with
  | case1 => intro _; rfl
  | case2 c => intro _; rfl
  | case3 c d rest hcond ih =>
    intro h
    rw [hasPair, if_pos hcond] at h
    cases h
  | case4 c d rest hcond ih =>
    intro h
    rw [normBackslashes, if_neg hcond]
    rw [hasPair, if_neg hcond] at h
    rw [ih h]

/-! ## Parsing / printing round-trip lemmas -/

theorem charsVal_cons (c : Char) (l : List Char) (a : ℕ) :
    charsVal (c :: l) a = charsVal l (10 * a + digitVal c) := rfl

theorem charsVal_concat (l : List Char) (c : Char) (a : ℕ) :
    charsVal (l ++ [c]) a = 10 * charsVal l a + digitVal c := by
  unfold charsVal
  rw [List.foldl_append]
  rfl

theorem digitsCore_cons_digit {c : Char} (hc : isDigitChar c = true)
    (rest : List Char) (a : ℕ) :
    digitsCore (c :: rest) a = digitsCore rest (10 * a + digitVal c) := by
  rw [digitsCore.eq_def]
  simp [hc]

theorem digitsCore_all :
    ∀ l : List Char, ∀ a : ℕ, (∀ c ∈ l, isDigitChar c = true) →
      digitsCore l a = some (charsVal l a) := by
  intro l
  induction l with
  | nil => intro a _; rfl
  | cons c rest ih =>
    intro a h
    have hc : isDigitChar c = true := h c (by simp)
    rw [digitsCore_cons_digit hc, charsVal_cons]
    exact ih _ (fun x hx => h x (by simp [hx]))

theorem pyIntDigits_all {c : Char} {rest : List Char}
    (h : ∀ x ∈ c :: rest, isDigitChar x = true) :
    pyIntDigits (c :: rest) = some (charsVal (c :: rest) 0) := by
  have hc : isDigitChar c = true := h c (by simp)
  rw [pyIntDigits, if_pos hc, charsVal_cons]
  have : 10 * 0 + digitVal c = digitVal c := by omega
  rw [this]
  exact digitsCore_all _ _ (fun x hx => h x (by simp [hx]))

theorem natStrAux_append :
    ∀ (fuel n : ℕ) (acc : List Char),
      natStrAux fuel n acc = natStrAux fuel n [] ++ acc := by
  intro fuel
  induction fuel with
  | zero => intro n acc; rfl
  | succ f ih =>
    intro n acc
    by_cases h : n < 10
    · rw [natStrAux, if_pos h, natStrAux, if_pos h]
      rfl
    · rw [natStrAux, if_neg h, natStrAux, if_neg h]
      rw [ih (n / 10) (toDigitChar (n % 10) :: acc),
        ih (n / 10) [toDigitChar (n % 10)]]
      simp

theorem natStrAux_fuel :
    ∀ (fuel fuel' n : ℕ) (acc : List Char), n < fuel → n < fuel' →
      natStrAux fuel n acc = natStrAux fuel' n acc := by
  intro fuel
  induction fuel with
  | zero => intro fuel' n acc h; omega
  | succ f ih =>
    intro fuel' n acc h h'
    cases fuel' with
    | zero => omega
    | succ f' =>
      by_cases h10 : n < 10
      · rw [natStrAux, if_pos h10, natStrAux, if_pos h10]
      · rw [natStrAux, if_neg h10, natStrAux, if_neg h10]
        have hdiv : n / 10 < n := Nat.div_lt_self (by omega) (by omega)
        exact ih f' (n / 10) _ (by omega) (by omega)

theorem natStr_chars :
    ∀ (fuel n : ℕ) (acc : List Char), n < fuel →
      (∀ c ∈ acc, isDigitChar c = true) →
      ∀ c ∈ natStrAux fuel n acc, isDigitChar c = true := by
  intro fuel
  induction fuel with
  | zero => intro n acc h; omega
  | succ f ih =>
    intro n acc h hacc c hc
    by_cases h10 : n < 10
    · rw [natStrAux, if_pos h10] at hc
      rcases List.mem_cons.mp hc with h1 | h2
      · rw [h1]; exact toDigitChar_digit h10
      · exact hacc c h2
    · rw [natStrAux, if_neg h10] at hc
      have hdiv : n / 10 < n := Nat.div_lt_self (by omega) (by omega)
      refine ih (n / 10) _ (by omega) ?_ c hc
      intro x hx
      rcases List.mem_cons.mp hx with h1 | h2
      · rw [h1]; exact toDigitChar_digit (Nat.mod_lt n (by omega))
      · exact hacc x h2

theorem natStr_all_digits {n : ℕ} : ∀ c ∈ natStr n, isDigitChar c = true :=
  natStr_chars (n + 1) n [] (by omega) (by simp)

theorem natStr_ne_nil (n : ℕ) : natStr n ≠ [] := by
  unfold natStr
  by_cases h : n < 10
  · rw [natStrAux, if_pos h]
    simp
  · rw [natStrAux, if_neg h, natStrAux_append]
    simp

theorem natStr_val : ∀ n : ℕ, charsVal (natStr n) 0 = n := by
  intro n
  induction n using Nat.strong_induction_on with
  | _ n ih =>
    by_cases h : n < 10
    · unfold natStr
      rw [natStrAux, if_pos h]
      show charsVal [toDigitChar n] 0 = n
      rw [charsVal_cons]
      show charsVal [] (10 * 0 + digitVal (toDigitChar n)) = n
      unfold charsVal
      simp [digitVal_toDigitChar h]
    · have hdiv : n / 10 < n := Nat.div_lt_self (by omega) (by omega)
      have hstep : natStr n = natStr (n / 10) ++ [toDigitChar (n % 10)] := by
        unfold natStr
        rw [natStrAux, if_neg h, natStrAux_append,
          natStrAux_fuel n (n / 10 + 1) (n / 10) [] (by omega) (by omega)]
      rw [hstep, charsVal_concat, ih (n / 10) hdiv,
        digitVal_toDigitChar (Nat.mod_lt n (by omega))]
      omega

theorem pyIntDigits_natStr (n : ℕ) : pyIntDigits (natStr n) = some n := by
  cases h : natStr n with
  | nil => exact absurd h (natStr_ne_nil n)
  | cons c rest =>
    have hall : ∀ x ∈ c :: rest, isDigitChar x = true := by
      rw [← h]; exact natStr_all_digits
    rw [pyIntDigits_all hall, ← h, natStr_val]

theorem natStr_head_digit {n : ℕ} {c : Char} {rest : List Char}
    (h : natStr n = c :: rest) : isDigitChar c = true :=
  natStr_all_digits c (by rw [h]; simp)

theorem pyIntCore_natStr (n : ℕ) : pyIntCore (natStr n) = some (n : ℤ) := by
  cases h : natStr n with
  | nil => exact absurd h (natStr_ne_nil n)
  | cons c rest =>
    have hc : isDigitChar c = true := natStr_head_digit h
    rw [pyIntCore, if_neg (digit_ne_plus hc), if_neg (digit_ne_minus hc), ← h,
      pyIntDigits_natStr]
    rfl

theorem intStr_chars {z : ℤ} :
    ∀ c ∈ intStr z, isDigitChar c = true ∨ c = '-' := by
  intro c hc
  unfold intStr at hc
  split at hc
  · rcases List.mem_cons.mp hc with h1 | h2
    · right; exact h1
    · left; exact natStr_all_digits c h2
  · left; exact natStr_all_digits c hc

theorem intStr_ne_nil (z : ℤ) : intStr z ≠ [] := by
  unfold intStr
  split
  · simp
  · exact natStr_ne_nil _

theorem pyStripL_intStr (z : ℤ) : pyStripL (intStr z) = intStr z := by
  apply pyStripL_all_not_space
  intro c hc
  rcases intStr_chars c hc with h | h
  · exact digit_not_space h
  · rw [h]; decide

theorem takeWhile_all {p : Char → Bool} :
    ∀ {l : List Char}, (∀ c ∈ l, p c = true) → l.takeWhile p = l := by
  intro l
  induction l with
  | nil => intro _; rfl
  | cons c rest ih =>
    intro h
    rw [List.takeWhile_cons, if_pos (h c (by simp))]
    rw [ih (fun x hx => h x (by simp [hx]))]

theorem takeWhile_slash_intStr (z : ℤ) :
    (intStr z).takeWhile (fun c => c ≠ '/') = intStr z := by
  apply takeWhile_all
  intro c hc
  rcases intStr_chars c hc with h | h
  · simpa using digit_ne_slash h
  · rw [h]; decide

theorem pyIntCore_intStr (z : ℤ) : pyIntCore (intStr z) = some z := by
  unfold intStr
  split
  · rename_i hz
    cases h : natStr z.natAbs with
    | nil => exact absurd h (natStr_ne_nil _)
    | cons c rest =>
      have hc : isDigitChar c = true := natStr_head_digit h
      rw [pyIntCore]
      rw [if_neg (by decide), if_pos rfl, ← h, pyIntDigits_natStr]
      have : -((z.natAbs : ℕ) : ℤ) = z := by omega
      show some (-((z.natAbs : ℕ) : ℤ)) = some z
      rw [this]
  · rename_i hz
    rw [pyIntCore_natStr]
    have : ((z.natAbs : ℕ) : ℤ) = z := by omega
    rw [this]

theorem pyInt_intStr (z : ℤ) : pyInt (intStr z) = some z := by
  rw [pyInt, pyStripL_intStr, pyIntCore_intStr]

/-! ## Sanitizer behaviour lemmas -/

theorem sanitizeTrackCore_intStr (n : ℤ) :
    sanitizeTrackCore (intStr n) = (false, intStr n) := by
  rw [sanitizeTrackCore]
  rw [if_neg (intStr_ne_nil n)]
  simp only [pyStripL_intStr, takeWhile_slash_intStr, pyInt_intStr]
  simp

theorem sanitizeTrackCore_eq (l : List Char) :
    sanitizeTrackCore l =
      if l = [] then (false, [])
      else
        match pyInt (pyStripL ((pyStripL l).takeWhile (fun c => c ≠ '/'))) with
        | some n => (decide (pyStripL l ≠ intStr n), intStr n)
        | none => (decide (pyStripL l ≠ []), []) := rfl

theorem sanitizeYearCore_eq (l : List Char) :
    sanitizeYearCore l =
      if l = [] then (false, [])
      else
        if hasPair '/' (normBackslashes (pyStripL l)) then
          (true, pyStripL (takeBeforePair '/' (normBackslashes (pyStripL l))))
        else (false, pyStripL l) := rfl

theorem sanitizeTrackCore_snd (l : List Char) :
    (sanitizeTrackCore l).2 = [] ∨ ∃ n, (sanitizeTrackCore l).2 = intStr n := by
  rw [sanitizeTrackCore_eq]
  split
  · left; rfl
  · split
    · right; exact ⟨_, rfl⟩
    · left; rfl

theorem sanitizeTrackCore_idem (l : List Char) :
    sanitizeTrackCore (sanitizeTrackCore l).2 = (false, (sanitizeTrackCore l).2) := by
  rcases sanitizeTrackCore_snd l with h | ⟨n, h⟩
  · rw [h]; rfl
  · rw [h, sanitizeTrackCore_intStr]

theorem sanitizeYearCore_snd (l : List Char) :
    (sanitizeYearCore l).2 = [] ∨
      (pyStripL (sanitizeYearCore l).2 = (sanitizeYearCore l).2 ∧
        hasPair '/' (normBackslashes (sanitizeYearCore l).2) = false) := by
  rw [sanitizeYearCore_eq]
  split
  · left; rfl
  · split
    · rename_i hdp
      right
      refine ⟨pyStripL_idem _, ?_⟩
      have hnbs :
          hasPair '\\' (pyStripL (takeBeforePair '/' (normBackslashes (pyStripL l)))) = false := by
        apply hasPair_pyStripL
        rcases takeBeforePair_decompose '/' (normBackslashes (pyStripL l)) with ⟨t, ht⟩
        have hnp : hasPair '\\' (normBackslashes (pyStripL l)) = false :=
          normBackslashes_no_pair (pyStripL l)
        rw [ht] at hnp
        exact hasPair_append_left hnp
      rw [normBackslashes_id_of_no_pair _ hnbs]
      exact hasPair_pyStripL (takeBeforePair_no_pair '/' _)
    · rename_i hdp
      right
      constructor
      · show pyStripL (pyStripL l) = pyStripL l
        exact pyStripL_idem l
      · show hasPair '/' (normBackslashes (pyStripL l)) = false
        simpa using hdp

theorem sanitizeYearCore_idem (l : List Char) :
    sanitizeYearCore (sanitizeYearCore l).2 = (false, (sanitizeYearCore l).2) := by
  rcases sanitizeYearCore_snd l with h | ⟨h1, h2⟩
  · rw [h]; rfl
  · by_cases hsn : (sanitizeYearCore l).2 = []
    · rw [hsn]; rfl
    · rw [sanitizeYearCore_eq, if_neg hsn, h1, if_neg (by rw [h2]; exact Bool.false_ne_true)]

/-! ## Claim theorems for the sanitizers -/

/-- C6: for every input string, `sanitize_track_number` trims whitespace,
takes the substring before the first `/`, and on a successful `int()`
parse returns `clean` = the re-stringified integer (leading zeros
stripped) with `changed = (original ≠ clean)` (the original compared after
trimming, as in the source); on parse failure it returns `clean = ""` with
`changed` true iff the (trimmed) original was non-empty; and the four
quoted examples evaluate as the claim states. -/
theorem C6_sanitize_track_number_spec :
    (∀ s : String,
      sanitize_track_number s =
        match pyInt (pyStripL ((pyStripL s.data).takeWhile (fun c => c ≠ '/'))) with
        | some n => (decide (pyStripL s.data ≠ intStr n), (⟨intStr n⟩ : String))
        | none => (decide (pyStripL s.data ≠ []), "")) ∧
    sanitize_track_number "07/12" = (true, "7") ∧
    sanitize_track_number "A1" = (true, "") ∧
    sanitize_track_number "" = (false, "") ∧
    sanitize_track_number "5" = (false, "5") := by
  refine ⟨?_, by decide, by decide, by decide, by decide⟩
  intro s
  show ((sanitizeTrackCore s.data).1, (⟨(sanitizeTrackCore s.data).2⟩ : String)) = _
  rw [sanitizeTrackCore_eq]
  by_cases hl : s.data = []
  · rw [if_pos hl, hl]
    rfl
  · rw [if_neg hl]
    cases hp : pyInt (pyStripL ((pyStripL s.data).takeWhile (fun c => c ≠ '/'))) with
    | some n => rfl
    | none => rfl

/-- C7 counterexample: the claim describes `sanitize_year` as normalizing
every backslash to a forward slash before looking for the `//` delimiter.
On the input `1999\/2000` (single backslash followed by a forward slash)
that description yields `(true, "1999")`, but the source only replaces
*pairs* of backslashes (`replace('\\\\', '//')`), finds no `//`, and
returns the input unchanged with `changed = false`. -/
theorem C7_sanitize_year_counterexample :
    sanitize_year "1999\\/2000" = (false, "1999\\/2000") ∧
    sanitizeYearClaim ("1999\\/2000").data = (true, "1999".data) ∧
    (sanitize_year "1999\\/2000").1 ≠ (sanitizeYearClaim ("1999\\/2000").data).1 :=
  ⟨by decide, by decide, by decide⟩

/-- C7 amended: for every input string, `sanitize_year` trims, replaces
each non-overlapping *pair* of consecutive backslashes (left to right)
with `//` (single backslashes are kept verbatim); if `//` then occurs,
`clean` is the trimmed substring before its first occurrence and
`changed = true`; otherwise the trimmed original is returned with
`changed = false`.  In particular `sanitize_year` maps `1999\\2000` (two
backslashes) to `(true, "1999")` and `1999` to `(false, "1999")`. -/
theorem C7_sanitize_year_amended :
    (∀ s : String,
      sanitize_year s =
        if hasPair '/' (normBackslashes (pyStripL s.data)) then
          (true, (⟨pyStripL (takeBeforePair '/' (normBackslashes (pyStripL s.data)))⟩ : String))
        else (false, (⟨pyStripL s.data⟩ : String))) ∧
    sanitize_year "1999\\\\2000" = (true, "1999") ∧
    sanitize_year "1999" = (false, "1999") := by
  refine ⟨?_, by decide, by decide⟩
  intro s
  show ((sanitizeYearCore s.data).1, (⟨(sanitizeYearCore s.data).2⟩ : String)) = _
  rw [sanitizeYearCore_eq]
  by_cases hl : s.data = []
  · rw [if_pos hl, hl]
    rfl
  · rw [if_neg hl]
    by_cases hdp : hasPair '/' (normBackslashes (pyStripL s.data)) = true
    · rw [if_pos hdp, if_pos hdp]
    · rw [if_neg hdp, if_neg hdp]

/-- C10: both sanitizers are idempotent: re-sanitizing the clean component
of an output yields `(false, clean)` — for `sanitize_track_number` and
`sanitize_year` alike. -/
theorem C10_sanitizer_idempotence (s : String) :
    sanitize_track_number (sanitize_track_number s).2 =
      (false, (sanitize_track_number s).2) ∧
    sanitize_year (sanitize_year s).2 = (false, (sanitize_year s).2) := by
  constructor
  · show ((sanitizeTrackCore (sanitizeTrackCore s.data).2).1,
      (⟨(sanitizeTrackCore (sanitizeTrackCore s.data).2).2⟩ : String)) = _
    rw [sanitizeTrackCore_idem s.data]
    rfl
  · show ((sanitizeYearCore (sanitizeYearCore s.data).2).1,
      (⟨(sanitizeYearCore (sanitizeYearCore s.data).2).2⟩ : String)) = _
    rw [sanitizeYearCore_idem s.data]
    rfl

/-! ## Claim theorem for the rating round-trip -/

theorem pyRound_eq (q : ℚ) :
    pyRound q =
      if q - ⌊q⌋ < 1/2 then ⌊q⌋
      else if 1/2 < q - ⌊q⌋ then ⌊q⌋ + 1
      else if ⌊q⌋ % 2 = 0 then ⌊q⌋ else ⌊q⌋ + 1 := rfl

/-- C8: for every rating `v ∈ {0, 0.5, …, 5}`, writing `v` as the POPM
byte `round(v/5*255)` and reading it back as `round(raw/255*5*2)/2`
returns exactly `v`: the 0–255 quantization introduces no drift at the
half-step boundaries. -/
theorem C8_rating_round_trip (v : ℚ) (h : ∃ k : ℕ, k ≤ 10 ∧ v = (k : ℚ) / 2) :
    load_rating_value (save_rating_byte v) = v := by
  obtain ⟨k, hk, rfl⟩ := h
  interval_cases k <;>
    · rw [save_rating_byte, pyRound_eq]
      norm_num
      first
      | done
      | · rw [load_rating_value, pyRound_eq]
          norm_num

/-- C8 witness: `write_rating` then `read_rating` at 3.5 returns 3.5. -/
theorem C8_rating_round_trip_witness :
    load_rating_value (save_rating_byte (7/2 : ℚ)) = (7/2 : ℚ) :=
  C8_rating_round_trip (7/2) ⟨7, by norm_num, by norm_num⟩

/-! ## Track Store lemmas -/

theorem add_songs_batch_append (l1 l2 : List SongRow) (db : List SongRow) :
    add_songs_batch (l1 ++ l2) db = add_songs_batch l2 (add_songs_batch l1 db) := by
  unfold add_songs_batch
  exact List.foldl_append upsert db l1 l2

theorem upsert_path_mem (db : List SongRow) (s : SongRow) {p : String}
    (h : p ∈ get_all_filepaths db) : p ∈ get_all_filepaths (upsert db s) := by
  unfold upsert
  split
  · rcases List.mem_map.mp h with ⟨r, hr, hrp⟩
    apply List.mem_map.mpr
    by_cases hrs : r.file_path = s.file_path
    · exact ⟨s, List.mem_map.mpr ⟨r, hr, by rw [if_pos hrs]⟩, by rw [← hrp, hrs]⟩
    · exact ⟨r, List.mem_map.mpr ⟨r, hr, by rw [if_neg hrs]⟩, hrp⟩
  · unfold get_all_filepaths at h ⊢
    rw [List.map_append]
    exact List.mem_append_left _ h

theorem add_songs_batch_path_mem (songs : List SongRow) :
    ∀ (db : List SongRow) (p : String), p ∈ get_all_filepaths db →
      p ∈ get_all_filepaths (add_songs_batch songs db) := by
  induction songs with
  | nil => intro db p h; exact h
  | cons s rest ih =>
    intro db p h
    exact ih (upsert db s) p (upsert_path_mem db s h)

theorem upsert_own_path (db : List SongRow) (s : SongRow) :
    s.file_path ∈ get_all_filepaths (upsert db s) := by
  unfold upsert
  split
  · rename_i hany
    rcases List.any_eq_true.mp hany with ⟨r, hr, hrp⟩
    apply List.mem_map.mpr
    refine ⟨s, List.mem_map.mpr ⟨r, hr, ?_⟩, rfl⟩
    rw [if_pos (by simpa using hrp)]
  · unfold get_all_filepaths
    rw [List.map_append]
    exact List.mem_append_right _ (by simp)

theorem add_songs_batch_all_paths (songs : List SongRow) :
    ∀ (db : List SongRow) (s : SongRow), s ∈ songs →
      s.file_path ∈ get_all_filepaths (add_songs_batch songs db) := by
  induction songs with
  | nil => intro db s h; cases h
  | cons s0 rest ih =>
    intro db s h
    rcases List.mem_cons.mp h with h1 | h2
    · subst h1
      show s.file_path ∈ get_all_filepaths (add_songs_batch rest (upsert db s))
      exact add_songs_batch_path_mem rest (upsert db s) s.file_path
        (upsert_own_path db s)
    · exact ih (upsert db s0) s h2

theorem upsert_mem_untouched {db : List SongRow} {r : SongRow} (s : SongRow)
    (hr : r ∈ db) (hne : r.file_path ≠ s.file_path) : r ∈ upsert db s := by
  unfold upsert
  split
  · exact List.mem_map.mpr ⟨r, hr, by rw [if_neg hne]⟩
  · exact List.mem_append_left _ hr

theorem add_songs_batch_mem_untouched (songs : List SongRow) :
    ∀ {db : List SongRow} {r : SongRow}, r ∈ db →
      (∀ s ∈ songs, r.file_path ≠ s.file_path) →
      r ∈ add_songs_batch songs db := by
  induction songs with
  | nil => intro db r h _; exact h
  | cons s rest ih =>
    intro db r h hne
    exact ih (upsert_mem_untouched s h (hne s (by simp)))
      (fun x hx => hne x (by simp [hx]))

theorem mem_upsert_elim {db : List SongRow} {s r : SongRow}
    (h : r ∈ upsert db s) :
    r = s ∨ (r ∈ db ∧ r.file_path ≠ s.file_path) := by
  unfold upsert at h
  split at h
  · rcases List.mem_map.mp h with ⟨r0, hr0, him⟩
    by_cases h0 : r0.file_path = s.file_path
    · rw [if_pos h0] at him
      left; exact him.symm
    · rw [if_neg h0] at him
      right
      rw [← him]
      exact ⟨hr0, h0⟩
  · rename_i hany
    rcases List.mem_append.mp h with h1 | h2
    · right
      refine ⟨h1, ?_⟩
      intro hp
      have : ¬ (List.any db fun r => decide (r.file_path = s.file_path)) = true := hany
      rw [List.any_eq_true] at this
      exact this ⟨r, h1, by simpa using hp⟩
    · left; simpa using h2

theorem mem_add_songs_batch_elim (songs : List SongRow) :
    ∀ {db : List SongRow} {r : SongRow}, r ∈ add_songs_batch songs db →
      r ∈ songs ∨
        (r ∈ db ∧ r.file_path ∉ songs.map (fun x => x.file_path)) := by
  induction songs with
  | nil => intro db r h; right; exact ⟨h, by simp⟩
  | cons s rest ih =>
    intro db r h
    rcases ih h with h1 | ⟨h2, h3⟩
    · left; exact List.mem_cons_of_mem s h1
    · rcases mem_upsert_elim h2 with h4 | ⟨h5, h6⟩
      · left; rw [h4]; exact List.mem_cons_self s rest
      · right
        refine ⟨h5, ?_⟩
        simp only [List.map_cons, List.mem_cons]
        push_neg
        exact ⟨h6, by simpa using h3⟩

/-! ## Scanner invariant lemmas -/

theorem initAcc_inv (db0 : List SongRow) : ScanInv db0 (initAcc db0) := by
  refine ⟨rfl, rfl, rfl, ?_⟩
  intro r hr
  cases hr

theorem pushSong_eq (acc : ScanAcc) (row : SongRow) :
    pushSong acc row =
      if 500 ≤ (acc.batch ++ [row]).length then
        { acc with processed := acc.processed ++ [row],
                   batch := [],
                   db := add_songs_batch (acc.batch ++ [row]) acc.db,
                   flushed := acc.flushed ++ (acc.batch ++ [row]) }
      else
        { acc with processed := acc.processed ++ [row],
                   batch := acc.batch ++ [row] } := rfl

theorem pushSong_step {db0 : List SongRow} {acc : ScanAcc}
    (h1 : acc.db = add_songs_batch acc.flushed db0)
    (h2 : acc.processed = acc.flushed ++ acc.batch)
    (h3 : acc.found = acc.processed.map (fun r => r.file_path))
    (h4 : ∀ r ∈ acc.processed, r.play_count = 0)
    (acc' : ScanAcc) (row : SongRow) (hrow : row.play_count = 0)
    (e1 : acc'.db = acc.db) (e2 : acc'.batch = acc.batch)
    (e3 : acc'.flushed = acc.flushed) (e4 : acc'.processed = acc.processed)
    (e5 : acc'.found = acc.found ++ [row.file_path]) :
    ScanInv db0 (pushSong acc' row) := by
  have hpc : ∀ r ∈ acc.processed ++ [row], r.play_count = 0 := by
    intro r hr
    rcases List.mem_append.mp hr with hm | hm
    · exact h4 r hm
    · rw [List.mem_singleton.mp hm]; exact hrow
  have hfound : acc'.found = (acc.processed ++ [row]).map (fun r => r.file_path) := by
    rw [e5, h3, List.map_append]
    rfl
  rw [pushSong_eq]
  split
  · refine ⟨?_, ?_, ?_, ?_⟩
    · show add_songs_batch (acc'.batch ++ [row]) acc'.db
        = add_songs_batch (acc'.flushed ++ (acc'.batch ++ [row])) db0
      rw [add_songs_batch_append acc'.flushed (acc'.batch ++ [row]) db0]
      rw [e1, e3, h1]
    · show acc'.processed ++ [row] = acc'.flushed ++ (acc'.batch ++ [row]) ++ []
      rw [e4, e2, e3, h2]
      simp
    · show acc'.found = (acc'.processed ++ [row]).map (fun r => r.file_path)
      rw [e4]
      exact hfound
    · show ∀ r ∈ acc'.processed ++ [row], r.play_count = 0
      rw [e4]
      exact hpc
  · refine ⟨?_, ?_, ?_, ?_⟩
    · show acc'.db = add_songs_batch acc'.flushed db0
      rw [e1, e3, h1]
    · show acc'.processed ++ [row] = acc'.flushed ++ (acc'.batch ++ [row])
      rw [e4, e2, e3, h2]
      simp
    · show acc'.found = (acc'.processed ++ [row]).map (fun r => r.file_path)
      rw [e4]
      exact hfound
    · show ∀ r ∈ acc'.processed ++ [row], r.play_count = 0
      rw [e4]
      exact hpc

theorem handleFile_inv {db0 : List SongRow} {acc : ScanAcc}
    (dirpath : String) (f : FSFile) (h : ScanInv db0 acc) :
    ScanInv db0 (handleFile dirpath f acc) := by
  obtain ⟨h1, h2, h3, h4⟩ := h
  cases hfe : f.easy with
  | none =>
    show ScanInv db0 (match f.easy with
      | none => _
      | some tg => _)
    rw [hfe]
    exact pushSong_step h1 h2 h3 h4 _ _ rfl rfl rfl rfl rfl rfl
  | some tg =>
    show ScanInv db0 (match f.easy with
      | none => _
      | some tg => _)
    rw [hfe]
    simp only []
    by_cases hb1 : (sanitize_track_number tg.tracknumber).1 = true <;>
      by_cases hb2 : (sanitize_year tg.year).1 = true <;>
        simp only [hb1, hb2, if_true, if_false] <;>
          cases hmp : f.mp3 with
          | none => exact pushSong_step h1 h2 h3 h4 _ _ rfl rfl rfl rfl rfl rfl
          | some dur =>
            cases hmt : f.mtime with
            | none => exact pushSong_step h1 h2 h3 h4 _ _ rfl rfl rfl rfl rfl rfl
            | some mt => exact pushSong_step h1 h2 h3 h4 _ _ rfl rfl rfl rfl rfl rfl

theorem checks_upd_inv {db0 : List SongRow} {acc : ScanAcc} (x : ℕ)
    (h : ScanInv db0 acc) : ScanInv db0 { acc with checks := x } := h

theorem processFiles_inv {db0 : List SongRow} (cA : Option ℕ) (dirpath : String) :
    ∀ (files : List FSFile) (acc : ScanAcc), ScanInv db0 acc →
      ScanInv db0 (processFiles cA dirpath files acc) := by
  intro files
  induction files with
  | nil => intro acc h; exact h
  | cons f rest ih =>
    intro acc h
    rw [processFiles]
    split
    · exact ih _ (handleFile_inv dirpath f (checks_upd_inv _ h))
    · exact checks_upd_inv _ h

theorem processEntry_inv {db0 : List SongRow} (cA : Option ℕ)
    (e : String × FSDir) (acc : ScanAcc) (h : ScanInv db0 acc) :
    ScanInv db0 (processEntry cA e acc) := by
  rw [processEntry]
  split
  · exact h
  · exact processFiles_inv cA e.1 _ acc h

theorem processEntries_inv {db0 : List SongRow} (cA : Option ℕ) :
    ∀ (entries : List (String × FSDir)) (acc : ScanAcc), ScanInv db0 acc →
      ScanInv db0 (processEntries cA entries acc) := by
  intro entries
  induction entries with
  | nil => intro acc h; exact h
  | cons e rest ih =>
    intro acc h
    rw [processEntries]
    split
    · exact ih _ (processEntry_inv cA e _ (checks_upd_inv _ h))
    · exact checks_upd_inv _ h

theorem scanAccOf_inv (db0 : List SongRow) (rootPath : String) (root : FSDir)
    (cA : Option ℕ) : ScanInv db0 (scanAccOf db0 rootPath root cA) :=
  processEntries_inv cA (walkDirs rootPath root) (initAcc db0) (initAcc_inv db0)

theorem ScannerRun_eq (db0 : List SongRow) (rootPath : String) (root : FSDir)
    (cA : Option ℕ) :
    ScannerRun db0 rootPath root cA =
      if running cA (scanAccOf db0 rootPath root cA).checks = false then
        RunResult.cancelled (scanAccOf db0 rootPath root cA).db
      else if (get_all_filepaths db0).filter
          (fun p => decide (p ∉ (scanAccOf db0 rootPath root cA).found)) = [] then
        RunResult.finished
          (add_songs_batch (scanAccOf db0 rootPath root cA).batch
            (scanAccOf db0 rootPath root cA).db)
          ⟨(scanAccOf db0 rootPath root cA).tagsToFix,
           (scanAccOf db0 rootPath root cA).yearsToFix,
           (scanAccOf db0 rootPath root cA).fileCount,
           (scanAccOf db0 rootPath root cA).latestMod⟩
      else
        RunResult.attrError
          (add_songs_batch (scanAccOf db0 rootPath root cA).batch
            (scanAccOf db0 rootPath root cA).db) := rfl

/-! ## Claim theorems for the scanner's store behaviour -/

/-- C1 (code bug evaluation): with a store holding `{/m/A.mp3, /m/B.mp3}`
and a walk finding `{/m/B.mp3, /m/C.mp3}`, the non-cancelled scan does
*not* end with the store equal to the walk set: the prune call trips over
the unbound `DatabaseManager.delete_songs_by_paths` (its `def` is nested
after the `return` of `get_all_filepaths`), the run dies with
`AttributeError`, nothing is emitted, and the store is left holding all
three paths — `A` was never pruned. -/
theorem C1_scan_reconciliation_failure_eval :
    get_all_filepaths [plainRow "/m/A.mp3" 0, plainRow "/m/B.mp3" 0]
        = ["/m/A.mp3", "/m/B.mp3"] ∧
    (scanAccOf [plainRow "/m/A.mp3" 0, plainRow "/m/B.mp3" 0] "/m" c1Tree
        none).found = ["/m/B.mp3", "/m/C.mp3"] ∧
    isAttrError (ScannerRun [plainRow "/m/A.mp3" 0, plainRow "/m/B.mp3" 0]
        "/m" c1Tree none) = true ∧
    emitsResult (ScannerRun [plainRow "/m/A.mp3" 0, plainRow "/m/B.mp3" 0]
        "/m" c1Tree none) = false ∧
    resultPathsOf (ScannerRun [plainRow "/m/A.mp3" 0, plainRow "/m/B.mp3" 0]
        "/m" c1Tree none) = ["/m/A.mp3", "/m/B.mp3", "/m/C.mp3"] :=
  ⟨by decide, by decide, by decide, by decide, by decide⟩

/-- C2: whenever a scan completes its walk (the final `is_running` read is
still true) and the stale set `db_paths − found_paths` is non-empty, the
prune call raises `AttributeError` (`delete_songs_by_paths` is never bound
as an attribute of `DatabaseManager`): the run ends in the error state
after the final batch flush, the `finished` signal is never emitted, and
every stale record remains in the store. -/
theorem C2_prune_attribute_error (db0 : List SongRow) (rootPath : String)
    (root : FSDir) (cancelAt : Option ℕ)
    (hrun : running cancelAt (scanAccOf db0 rootPath root cancelAt).checks = true)
    (hstale : (get_all_filepaths db0).filter
        (fun p => decide (p ∉ (scanAccOf db0 rootPath root cancelAt).found)) ≠ []) :
    ScannerRun db0 rootPath root cancelAt
        = RunResult.attrError
            (add_songs_batch (scanAccOf db0 rootPath root cancelAt).batch
              (scanAccOf db0 rootPath root cancelAt).db) ∧
    emitsResult (ScannerRun db0 rootPath root cancelAt) = false ∧
    (∀ r ∈ db0, r.file_path ∉ (scanAccOf db0 rootPath root cancelAt).found →
      r ∈ storeOf (ScannerRun db0 rootPath root cancelAt)) := by
  have hres : ScannerRun db0 rootPath root cancelAt
      = RunResult.attrError
          (add_songs_batch (scanAccOf db0 rootPath root cancelAt).batch
            (scanAccOf db0 rootPath root cancelAt).db) := by
    rw [ScannerRun_eq]
    rw [if_neg (by simp [hrun])]
    rw [if_neg hstale]
  refine ⟨hres, by rw [hres]; rfl, ?_⟩
  intro r hr hnot
  rw [hres]
  show r ∈ add_songs_batch (scanAccOf db0 rootPath root cancelAt).batch
      (scanAccOf db0 rootPath root cancelAt).db
  obtain ⟨h1, h2, h3, h4⟩ := scanAccOf_inv db0 rootPath root cancelAt
  rw [h1, ← add_songs_batch_append]
  apply add_songs_batch_mem_untouched _ hr
  intro s hs heq
  have hsp : s ∈ (scanAccOf db0 rootPath root cancelAt).processed := by
    rw [h2]; exact hs
  have hsf : s.file_path ∈ (scanAccOf db0 rootPath root cancelAt).found := by
    rw [h3]; exact List.mem_map_of_mem _ hsp
  rw [heq] at hnot
  exact hnot hsf

/-- C2 witness: a store holding `/w/a.mp3` scanned over a walk finding
only `/w/b.mp3` hits the `AttributeError`, emits nothing, and keeps the
stale record. -/
theorem C2_prune_attribute_error_witness :
    ScannerRun [plainRow "/w/a.mp3" 0] "/w" c2Tree none
        = RunResult.attrError
            (add_songs_batch (scanAccOf [plainRow "/w/a.mp3" 0] "/w" c2Tree none).batch
              (scanAccOf [plainRow "/w/a.mp3" 0] "/w" c2Tree none).db) ∧
    emitsResult (ScannerRun [plainRow "/w/a.mp3" 0] "/w" c2Tree none) = false ∧
    plainRow "/w/a.mp3" 0
      ∈ storeOf (ScannerRun [plainRow "/w/a.mp3" 0] "/w" c2Tree none) := by
  have h := C2_prune_attribute_error [plainRow "/w/a.mp3" 0] "/w" c2Tree none
    (by decide) (by decide)
  exact ⟨h.1, h.2.1, h.2.2 (plainRow "/w/a.mp3" 0) (by decide) (by decide)⟩

/-- C3 counterexample: a stored record at `/m3/B.mp3` with `play_count = 7`
is re-encountered by a completed scan; afterwards its `play_count` is 0,
not 7 — the scanner's `INSERT OR REPLACE` writes a fresh `Song`, whose
`play_count` defaults to 0, over the whole row. -/
theorem C3_play_count_counterexample :
    (rowAt [plainRow "/m3/B.mp3" 7] "/m3/B.mp3").map (fun r => r.play_count)
        = some 7 ∧
    emitsResult (ScannerRun [plainRow "/m3/B.mp3" 7] "/m3" c3Tree none) = true ∧
    (rowAt (storeOf (ScannerRun [plainRow "/m3/B.mp3" 7] "/m3" c3Tree none))
        "/m3/B.mp3").map (fun r => r.play_count) = some 0 :=
  ⟨by decide, by decide, by decide⟩

/-- C3 amended: the scanner does not preserve `play_count` — it resets it.
After a completed (signal-emitting) scan, every record whose path was
found by the walk carries `play_count = 0`, because the batch upsert
replaces the whole row with a freshly constructed `Song` whose
`play_count` defaults to 0.  A stored `play_count` survives only at paths
the walk did not touch. -/
theorem C3_play_count_reset (db0 : List SongRow) (rootPath : String)
    (root : FSDir) (cancelAt : Option ℕ) :
    ∀ r ∈ storeOf (ScannerRun db0 rootPath root cancelAt),
      emitsResult (ScannerRun db0 rootPath root cancelAt) = true →
      r.file_path ∈ (scanAccOf db0 rootPath root cancelAt).found →
      r.play_count = 0 := by
  intro r hr hem hf
  rw [ScannerRun_eq] at hr hem
  by_cases hrn : running cancelAt (scanAccOf db0 rootPath root cancelAt).checks = false
  · rw [if_pos hrn] at hem
    cases hem
  · rw [if_neg hrn] at hr hem
    by_cases hst : (get_all_filepaths db0).filter
        (fun p => decide (p ∉ (scanAccOf db0 rootPath root cancelAt).found)) = []
    · rw [if_pos hst] at hr
      obtain ⟨h1, h2, h3, h4⟩ := scanAccOf_inv db0 rootPath root cancelAt
      have hr' : r ∈ add_songs_batch
          ((scanAccOf db0 rootPath root cancelAt).flushed
            ++ (scanAccOf db0 rootPath root cancelAt).batch) db0 := by
        rw [add_songs_batch_append, ← h1]
        exact hr
      rcases mem_add_songs_batch_elim _ hr' with hp | ⟨_, hnp⟩
      · exact h4 r (by rw [h2]; exact hp)
      · exfalso
        apply hnp
        rw [← h2]
        have : (scanAccOf db0 rootPath root cancelAt).processed.map
            (fun x => x.file_path)
            = (scanAccOf db0 rootPath root cancelAt).found := h3.symm
        rw [this]
        exact hf
    · rw [if_neg hst] at hem
      cases hem

/-- C3 witness: the concrete record the scan of `c3Tree` writes for
`/m3/B.mp3` (over a store that held `play_count = 7`) has
`play_count = 0`. -/
theorem C3_play_count_reset_witness :
    ({ file_path := "/m3/B.mp3", artist := some "ar", title := some "ti",
       album := some "al", genre := some "ge", year := some "1999",
       comment := none, duration := 3, play_count := 0, rating := 0,
       ext1 := some "1" } : SongRow).play_count = 0 :=
  C3_play_count_reset [plainRow "/m3/B.mp3" 7] "/m3" c3Tree none
    { file_path := "/m3/B.mp3", artist := some "ar", title := some "ti",
      album := some "al", genre := some "ge", year := some "1999",
      comment := none, duration := 3, play_count := 0, rating := 0,
      ext1 := some "1" }
    (by decide) (by decide) (by decide)

/-- C5: a cancelled scan is a safe partial sync.  If the run ends
cancelled, the resulting store is exactly the walk-time store: the initial
store with precisely the flushed batches applied (so every record of a
flushed batch is present by path, nothing was deleted — the prune step
never ran — and stale paths persist), the pending batch
(`processed − flushed`) was never written, and no completion signal is
emitted. -/
theorem C5_cancellation_safety (db0 : List SongRow) (rootPath : String)
    (root : FSDir) (cancelAt : Option ℕ) (db' : List SongRow)
    (hc : ScannerRun db0 rootPath root cancelAt = RunResult.cancelled db') :
    db' = (scanAccOf db0 rootPath root cancelAt).db ∧
    db' = add_songs_batch (scanAccOf db0 rootPath root cancelAt).flushed db0 ∧
    (scanAccOf db0 rootPath root cancelAt).processed
      = (scanAccOf db0 rootPath root cancelAt).flushed
        ++ (scanAccOf db0 rootPath root cancelAt).batch ∧
    (∀ s ∈ (scanAccOf db0 rootPath root cancelAt).flushed,
      s.file_path ∈ get_all_filepaths db') ∧
    (∀ p ∈ get_all_filepaths db0, p ∈ get_all_filepaths db') ∧
    emitsResult (ScannerRun db0 rootPath root cancelAt) = false := by
  rw [ScannerRun_eq] at hc
  by_cases hrn : running cancelAt (scanAccOf db0 rootPath root cancelAt).checks = false
  · rw [if_pos hrn] at hc
    obtain ⟨h1, h2, h3, h4⟩ := scanAccOf_inv db0 rootPath root cancelAt
    have hdb : db' = (scanAccOf db0 rootPath root cancelAt).db :=
      (RunResult.cancelled.injEq _ _).mp hc.symm
    have hdb2 : db' = add_songs_batch
        (scanAccOf db0 rootPath root cancelAt).flushed db0 := by
      rw [hdb, h1]
    refine ⟨hdb, hdb2, h2, ?_, ?_, ?_⟩
    · intro s hs
      rw [hdb2]
      exact add_songs_batch_all_paths _ db0 s hs
    · intro p hp
      rw [hdb2]
      exact add_songs_batch_path_mem _ db0 p hp
    · rw [ScannerRun_eq, if_pos hrn]
      rfl
  · rw [if_neg hrn] at hc
    split at hc <;> cases hc

/-- C5 witness: cancelling right after the first file-loop check (no batch
was ever flushed) leaves the store exactly as it was, and emits nothing. -/
theorem C5_cancellation_safety_witness :
    [plainRow "/m6/stale.mp3" 4]
        = (scanAccOf [plainRow "/m6/stale.mp3" 4] "/m6" c5Tree (some 1)).db ∧
    "/m6/stale.mp3" ∈ get_all_filepaths [plainRow "/m6/stale.mp3" 4] ∧
    emitsResult (ScannerRun [plainRow "/m6/stale.mp3" 4] "/m6" c5Tree (some 1))
      = false := by
  have h := C5_cancellation_safety [plainRow "/m6/stale.mp3" 4] "/m6" c5Tree
    (some 1) [plainRow "/m6/stale.mp3" 4] (by decide)
  exact ⟨h.1, h.2.2.2.2.1 "/m6/stale.mp3" (by decide), h.2.2.2.2.2⟩

/-! ## Fingerprint lemmas -/

theorem pushSong_fp (acc : ScanAcc) (row : SongRow) :
    (pushSong acc row).fileCount = acc.fileCount ∧
    (pushSong acc row).latestMod = acc.latestMod := by
  rw [pushSong_eq]
  split <;> exact ⟨rfl, rfl⟩

theorem handleFile_fp (dirpath : String) (f : FSFile) (acc : ScanAcc)
    {tg : EasyTags} {dur mt : ℚ}
    (he : f.easy = some tg) (hm : f.mp3 = some dur) (ht : f.mtime = some mt) :
    (handleFile dirpath f acc).fileCount = acc.fileCount + 1 ∧
    (handleFile dirpath f acc).latestMod = max acc.latestMod mt := by
  simp only [handleFile, he, hm, ht]
  by_cases hb1 : (sanitize_track_number tg.tracknumber).1 = true <;>
    by_cases hb2 : (sanitize_year tg.year).1 = true <;>
      simp only [hb1, hb2, if_true, if_false] <;>
        exact ⟨(pushSong_fp _ _).1, (pushSong_fp _ _).2⟩

theorem snapFiles_cons (f : FSFile) (rest : List FSFile) (p : ℕ × ℚ) :
    snapFiles (f :: rest) p = snapFiles rest (snapStep p f) := rfl

theorem snapFiles_append (l1 l2 : List FSFile) (p : ℕ × ℚ) :
    snapFiles (l1 ++ l2) p = snapFiles l2 (snapFiles l1 p) :=
  List.foldl_append snapStep p l1 l2

theorem fileOk_mp3 {f : FSFile} (hok : fileOk f = true)
    (hmp3 : pyEndsWith f.name ".mp3" = true) :
    pyEndsWith (pyLower f.name) ".mp3" = true ∧
      (∃ tg, f.easy = some tg) ∧ (∃ d, f.mp3 = some d) ∧
      (∃ m, f.mtime = some m) := by
  rw [fileOk, Bool.and_eq_true, if_pos hmp3, Bool.and_eq_true,
    Bool.and_eq_true] at hok
  obtain ⟨hbeq, ⟨h1, h2⟩, h3⟩ := hok
  rw [hmp3] at hbeq
  exact ⟨(beq_iff_eq.mp hbeq).symm, Option.isSome_iff_exists.mp h1,
    Option.isSome_iff_exists.mp h2, Option.isSome_iff_exists.mp h3⟩

theorem fileOk_not_mp3 {f : FSFile} (hok : fileOk f = true)
    (hmp3 : pyEndsWith f.name ".mp3" = false) :
    pyEndsWith (pyLower f.name) ".mp3" = false := by
  rw [fileOk, Bool.and_eq_true] at hok
  obtain ⟨hbeq, _⟩ := hok
  rw [hmp3] at hbeq
  exact (beq_iff_eq.mp hbeq).symm

theorem processFiles_none_fp (dp : String) :
    ∀ (files : List FSFile) (acc : ScanAcc),
      (∀ f ∈ files, fileOk f = true) →
      ((processFiles none dp (files.filter (fun f => pyEndsWith f.name ".mp3")) acc).fileCount,
       (processFiles none dp (files.filter (fun f => pyEndsWith f.name ".mp3")) acc).latestMod)
        = snapFiles files (acc.fileCount, acc.latestMod) := by
  intro files
  induction files with
  | nil => intro acc _; rfl
  | cons f rest ih =>
    intro acc h
    have hok := h f (by simp)
    have hrest : ∀ x ∈ rest, fileOk x = true := fun x hx => h x (by simp [hx])
    by_cases hmp3 : pyEndsWith f.name ".mp3" = true
    · rw [List.filter_cons, if_pos hmp3]
      rw [processFiles, if_pos (show running none acc.checks = true by rfl)]
      obtain ⟨hlow, ⟨tg, he⟩, ⟨d, hm⟩, ⟨mt, ht⟩⟩ := fileOk_mp3 hok hmp3
      have hfp := handleFile_fp dp f { acc with checks := acc.checks + 1 } he hm ht
      rw [ih (handleFile dp f { acc with checks := acc.checks + 1 }) hrest]
      rw [snapFiles_cons]
      rw [hfp.1, hfp.2]
      have hstep : snapStep (acc.fileCount, acc.latestMod) f
          = (acc.fileCount + 1, max acc.latestMod mt) := by
        rw [snapStep, if_pos hlow, ht]
      rw [hstep]
    · rw [List.filter_cons, if_neg hmp3]
      have hlow := fileOk_not_mp3 hok (Bool.eq_false_iff.mpr hmp3)
      rw [ih acc hrest, snapFiles_cons]
      have hstep : snapStep (acc.fileCount, acc.latestMod) f
          = (acc.fileCount, acc.latestMod) := by
        rw [snapStep, if_neg (by rw [hlow]; exact Bool.false_ne_true)]
      rw [hstep]

theorem processEntries_none_fp :
    ∀ (entries : List (String × FSDir)) (acc : ScanAcc),
      (∀ e ∈ entries, dirNameOk e.2.name = true ∧
        ∀ f ∈ e.2.files, fileOk f = true) →
      ((processEntries none entries acc).fileCount,
       (processEntries none entries acc).latestMod)
        = snapFiles (entries.flatMap (fun e => e.2.files))
            (acc.fileCount, acc.latestMod) := by
  intro entries
  induction entries with
  | nil => intro acc _; rfl
  | cons e rest ih =>
    intro acc h
    obtain ⟨hdn, hfs⟩ := h e (by simp)
    have hrest : ∀ x ∈ rest, dirNameOk x.2.name = true ∧
        ∀ f ∈ x.2.files, fileOk f = true := fun x hx => h x (by simp [hx])
    rw [processEntries, if_pos (show running none acc.checks = true by rfl)]
    have hskip : ¬ (pyLower e.2.name = "parking" ∨ e.2.name = "Library") := by
      rw [dirNameOk, Bool.and_eq_true] at hdn
      obtain ⟨hd1, hd2⟩ := hdn
      rintro (hx | hx)
      · rw [hx] at hd1; simp at hd1
      · rw [hx] at hd2; simp at hd2
    have hentry : processEntry none e { acc with checks := acc.checks + 1 }
        = processFiles none e.1
            (e.2.files.filter (fun f => pyEndsWith f.name ".mp3"))
            { acc with checks := acc.checks + 1 } := by
      rw [processEntry, if_neg hskip]
    rw [ih _ hrest, hentry]
    have hpf := processFiles_none_fp e.1 e.2.files
      { acc with checks := acc.checks + 1 } hfs
    rw [List.flatMap_cons, snapFiles_append]
    have : ((processFiles none e.1
        (e.2.files.filter (fun f => pyEndsWith f.name ".mp3"))
        { acc with checks := acc.checks + 1 }).fileCount,
        (processFiles none e.1
          (e.2.files.filter (fun f => pyEndsWith f.name ".mp3"))
          { acc with checks := acc.checks + 1 }).latestMod)
        = snapFiles e.2.files (acc.fileCount, acc.latestMod) := hpf
    rw [← this]

theorem goodTree_keepDir {c : FSDir} (h : goodTree c = true) :
    keepDir c = true := by
  cases c with
  | mk n fs subs =>
    rw [goodTree, Bool.and_eq_true, Bool.and_eq_true] at h
    exact h.1.1

theorem goodTree_parts {n : String} {fs : List FSFile} {subs : List FSDir}
    (h : goodTree (.mk n fs subs) = true) :
    dirNameOk n = true ∧ (∀ f ∈ fs, fileOk f = true) ∧ goodTreeL subs = true := by
  rw [goodTree, Bool.and_eq_true, Bool.and_eq_true] at h
  exact ⟨h.1.1, fun f hf => List.all_eq_true.mp h.1.2 f hf, h.2⟩

theorem walk_files_good :
    ∀ (p : String) (t : FSDir), goodTree t = true →
      ((walkDirs p t).flatMap (fun e => e.2.files) = treeFiles t ∧
       ∀ e ∈ walkDirs p t, dirNameOk e.2.name = true ∧
         ∀ f ∈ e.2.files, fileOk f = true) := by
  refine walkDirs.induct
    (fun p t => goodTree t = true →
      ((walkDirs p t).flatMap (fun e => e.2.files) = treeFiles t ∧
       ∀ e ∈ walkDirs p t, dirNameOk e.2.name = true ∧
         ∀ f ∈ e.2.files, fileOk f = true))
    (fun p subs => goodTreeL subs = true →
      ((walkList p subs).flatMap (fun e => e.2.files) = treeFilesL subs ∧
       ∀ e ∈ walkList p subs, dirNameOk e.2.name = true ∧
         ∀ f ∈ e.2.files, fileOk f = true))
    ?_ ?_ ?_
  · intro p n fs subs ih hg
    obtain ⟨hdn, hfs, hsubs⟩ := goodTree_parts hg
    obtain ⟨ih1, ih2⟩ := ih hsubs
    constructor
    · rw [walkDirs, List.flatMap_cons, ih1, treeFiles]
      rfl
    · intro e he
      rw [walkDirs] at he
      rcases List.mem_cons.mp he with h1 | h2
      · rw [h1]
        exact ⟨hdn, hfs⟩
      · exact ih2 e h2
  · intro p _
    exact ⟨rfl, fun e he => absurd he (List.not_mem_nil e)⟩
  · intro p c rest ih1 ih2 hg
    rw [goodTreeL, Bool.and_eq_true] at hg
    obtain ⟨hc, hrest⟩ := hg
    obtain ⟨ia1, ia2⟩ := ih1 hc
    obtain ⟨ib1, ib2⟩ := ih2 hrest
    rw [walkList, if_pos (goodTree_keepDir hc)]
    constructor
    · rw [List.flatMap_append, ia1, ib1, treeFilesL]
    · intro e he
      rcases List.mem_append.mp he with h1 | h2
      · exact ia2 e h1
      · exact ib2 e h2

theorem snapFiles_snd_mono :
    ∀ (files : List FSFile) (p : ℕ × ℚ), p.2 ≤ (snapFiles files p).2 := by
  intro files
  induction files with
  | nil => intro p; exact le_refl _
  | cons f rest ih =>
    intro p
    rw [snapFiles_cons]
    refine le_trans ?_ (ih (snapStep p f))
    cases hmt : f.mtime with
    | none =>
      rw [snapStep, hmt]
      split
      · exact le_refl _
      · exact le_refl _
    | some m =>
      rw [snapStep, hmt]
      split
      · exact le_max_left _ _
      · exact le_refl _

theorem snapFiles_mem_le {f : FSFile} {m : ℚ}
    (hlow : pyEndsWith (pyLower f.name) ".mp3" = true) (hm : f.mtime = some m) :
    ∀ (files : List FSFile), f ∈ files → ∀ p : ℕ × ℚ,
      m ≤ (snapFiles files p).2 := by
  intro files
  induction files with
  | nil => intro hf; cases hf
  | cons f0 rest ih =>
    intro hf p
    rcases List.mem_cons.mp hf with h1 | h2
    · subst h1
      rw [snapFiles_cons]
      refine le_trans ?_ (snapFiles_snd_mono rest (snapStep p f))
      rw [snapStep, if_pos hlow, hm]
      exact le_trans (le_max_right _ _) (le_refl _)
    · rw [snapFiles_cons]
      exact ih h2 (snapStep p f0)

/-! ## Claim theorems for the fingerprint -/

/-- C4 counterexample: over `c4BadTree` — whose only audio file sits in a
`parking` folder — a completed scan emits fingerprint `(0, 0)` while
`create_library_snapshot` computes `(1, 5)`: the two fingerprints disagree
on an unchanged tree, because the scanner excludes `parking`/`Library`
directories (and files whose `.mp3` suffix is not lower-case, and files
whose tag reads fail) while the snapshot walk counts them.  And modifying
the mtime of audio file `a.mp3` of `c4TreeA` from 3 to 5 (both below the
other file's mtime 9) leaves the fingerprint unchanged, so an mtime
modification does not always change the fingerprint. -/
theorem C4_fingerprint_counterexample :
    emitsResult (ScannerRun [] "/m4" c4BadTree none) = true ∧
    fingerprintOf (ScannerRun [] "/m4" c4BadTree none) = some (0, 0) ∧
    create_library_snapshot c4BadTree = (1, 5) ∧
    (treeFiles c4TreeA).map (fun f => f.name)
      = (treeFiles c4TreeB).map (fun f => f.name) ∧
    (treeFiles c4TreeA).map (fun f => f.mtime) = [some 3, some 9] ∧
    (treeFiles c4TreeB).map (fun f => f.mtime) = [some 5, some 9] ∧
    create_library_snapshot c4TreeA = create_library_snapshot c4TreeB :=
  ⟨by decide, by decide, by decide, by decide, by decide, by decide, by decide⟩

/-- C4 amended: over a hygienic tree — no `parking`/`Library` directory
anywhere, every `.mp3` suffix case-consistent, every audio file readable —
the fingerprint emitted by a completed, non-cancelled scan equals the
snapshot `create_library_snapshot` computes over the same tree (and two
computations of either fingerprint over the same tree are equal, both
being pure functions of the tree).  Touching an audio file — raising its
mtime strictly above the tree's previous `latest_mod_time` — changes the
fingerprint. -/
theorem C4_fingerprint_amended (db0 : List SongRow) (rootPath : String)
    (t t' : FSDir) (f : FSFile) (m : ℚ)
    (hg : goodTree t = true)
    (hem : emitsResult (ScannerRun db0 rootPath t none) = true)
    (hf : f ∈ treeFiles t')
    (hmp : pyEndsWith (pyLower f.name) ".mp3" = true)
    (hmt : f.mtime = some m)
    (hlt : (create_library_snapshot t).2 < m) :
    fingerprintOf (ScannerRun db0 rootPath t none)
        = some (create_library_snapshot t) ∧
    create_library_snapshot t' ≠ create_library_snapshot t := by
  constructor
  · rw [ScannerRun_eq] at hem ⊢
    rw [if_neg (by simp [running])] at hem ⊢
    by_cases hst : (get_all_filepaths db0).filter
        (fun p => decide (p ∉ (scanAccOf db0 rootPath t none).found)) = []
    · rw [if_pos hst]
      show some ((scanAccOf db0 rootPath t none).fileCount,
        (scanAccOf db0 rootPath t none).latestMod) = _
      obtain ⟨hw1, hw2⟩ := walk_files_good rootPath t hg
      have := processEntries_none_fp (walkDirs rootPath t) (initAcc db0) hw2
      rw [hw1] at this
      rw [create_library_snapshot]
      show some ((processEntries none (walkDirs rootPath t) (initAcc db0)).fileCount,
        (processEntries none (walkDirs rootPath t) (initAcc db0)).latestMod) = _
      rw [this]
      rfl
    · rw [if_neg hst] at hem
      cases hem
  · intro heq
    have h1 : m ≤ (create_library_snapshot t').2 :=
      snapFiles_mem_le hmp hmt (treeFiles t') hf (0, 0)
    rw [heq] at h1
    exact absurd (lt_of_lt_of_le hlt h1) (lt_irrefl _)

/-- C4 witness: over the hygienic `c4GoodTree` the scan fingerprint equals
the snapshot, and touching `a.mp3` (mtime 5 → 20, above the previous
maximum 8) changes the fingerprint. -/
theorem C4_fingerprint_amended_witness :
    fingerprintOf (ScannerRun [] "/g" c4GoodTree none)
        = some (create_library_snapshot c4GoodTree) ∧
    create_library_snapshot c4GoodTouched ≠ create_library_snapshot c4GoodTree :=
  C4_fingerprint_amended [] "/g" c4GoodTree c4GoodTouched
    ⟨"a.mp3", some 20, some egTags, some 2⟩ 20
    (by decide) (by decide) (by decide) (by decide) (by decide) (by decide)

/-! ## Hierarchy lemmas and claim theorem -/

theorem mem_sortStrings {x : String} {l : List String} (h : x ∈ l) :
    x ∈ sortStrings l := by
  unfold sortStrings
  exact (List.Perm.mem_iff (List.perm_insertionSort _ _)).mpr
    (List.mem_dedup.mpr h)

theorem sortStrings_sorted (l : List String) :
    List.Sorted (fun a b : String => a ≤ b) (sortStrings l) :=
  List.sorted_insertionSort _ _

theorem map_fst_pairing {β : Type} (f : String → β) :
    ∀ l : List String, (l.map (fun al => (al, f al))).map (fun p => p.1) = l := by
  intro l
  induction l with
  | nil => rfl
  | cons x xs ih => simp only [List.map_cons, ih]

/-- C9: the hierarchy builder groups every record under
`(genre or "Unknown", artist or "Unknown", album or "Unknown")` — empty or
missing genre/artist/album fall back to the literal `Unknown`; albums
under an artist are emitted in ascending alphabetical order; tracks within
an album are ordered by the integer parse of the first extension slot
(part before `/`, unparsable as 0); and extension values
`["2", "10", "1"]` order as `["1", "2", "10"]`. -/
theorem C9_hierarchy_spec (songs : List SongRow) :
    (∀ s ∈ songs,
      (genreKey s, artistsFor songs (genreKey s)) ∈ buildHierarchy songs ∧
      (artistKey s, albumsFor songs (genreKey s) (artistKey s))
        ∈ artistsFor songs (genreKey s) ∧
      (albumKey s, tracksFor songs (genreKey s) (artistKey s) (albumKey s))
        ∈ albumsFor songs (genreKey s) (artistKey s) ∧
      s ∈ tracksFor songs (genreKey s) (artistKey s) (albumKey s)) ∧
    (∀ o : Option String, o = none ∨ o = some "" → orUnknown o = "Unknown") ∧
    (∀ g a, List.Sorted (fun x y : String => x ≤ y)
      ((albumsFor songs g a).map (fun p => p.1))) ∧
    (∀ g a al, List.Sorted byTrackKey (tracksFor songs g a al)) ∧
    (tracksFor
        [c9Row "p1" (some "g") (some "a") (some "al") (some "2"),
         c9Row "p2" (some "g") (some "a") (some "al") (some "10"),
         c9Row "p3" (some "g") (some "a") (some "al") (some "1")]
        "g" "a" "al").map (fun s => s.ext1)
      = [some "1", some "2", some "10"] := by
  refine ⟨?_, ?_, ?_, ?_, by decide⟩
  · intro s hs
    have htrack : s ∈ tracksFor songs (genreKey s) (artistKey s) (albumKey s) := by
      unfold tracksFor
      refine (List.Perm.mem_iff (List.perm_insertionSort _ _)).mpr ?_
      exact List.mem_filter.mpr ⟨hs, by simp⟩
    refine ⟨?_, ?_, ?_, htrack⟩
    · unfold buildHierarchy
      exact List.mem_map.mpr ⟨genreKey s,
        mem_sortStrings (List.mem_map_of_mem _ hs), rfl⟩
    · unfold artistsFor
      refine List.mem_map.mpr ⟨artistKey s, ?_, rfl⟩
      apply mem_sortStrings
      exact List.mem_map_of_mem _ (List.mem_filter.mpr ⟨hs, by simp⟩)
    · unfold albumsFor
      refine List.mem_map.mpr ⟨albumKey s, ?_, rfl⟩
      apply mem_sortStrings
      exact List.mem_map_of_mem _ (List.mem_filter.mpr ⟨hs, by simp⟩)
  · intro o ho
    rcases ho with h | h <;> rw [h] <;> rfl
  · intro g a
    unfold albumsFor
    rw [map_fst_pairing]
    exact sortStrings_sorted _
  · intro g a al
    exact List.sorted_insertionSort _ _

/-- C9 witness: a record with missing genre is grouped under `Unknown`
and sits in its album's ordered track list. -/
theorem C9_hierarchy_spec_witness :
    (genreKey (c9Row "p0" none (some "ar") (some "al") none),
        artistsFor [c9Row "p0" none (some "ar") (some "al") none]
          (genreKey (c9Row "p0" none (some "ar") (some "al") none)))
      ∈ buildHierarchy [c9Row "p0" none (some "ar") (some "al") none] ∧
    genreKey (c9Row "p0" none (some "ar") (some "al") none) = "Unknown" ∧
    c9Row "p0" none (some "ar") (some "al") none
      ∈ tracksFor [c9Row "p0" none (some "ar") (some "al") none]
          "Unknown" "ar" "al" := by
  have h := C9_hierarchy_spec [c9Row "p0" none (some "ar") (some "al") none]
  have h1 := h.1 (c9Row "p0" none (some "ar") (some "al") none) (by decide)
  exact ⟨h1.1, by decide, h1.2.2.2⟩
